import Mathlib

/-!
Verification of the Halve-It darts rule engines (contracts, Killer, Clock)
against their specification. The JavaScript sources are shallowly embedded:
JS numbers become `Int`, JS strings become `String`, dart records become the
`Dart` structure, JS objects used as string-keyed maps become association
lists (where key order is observable) or `String → _` functions (where only
lookup is observable, with JS's falsy default for absent keys), and a JS
value that may be `undefined`/`null` or a thrown `TypeError` is an `Option`.
-/

namespace HalveIt

/-- A dart record `{ number, modifier, score }` as used throughout the app. -/
structure Dart where
  number : Int
  modifier : String
  score : Int
deriving DecidableEq

/-- Dartboard arrangement (clockwise from top), `DARTBOARD_SEQUENCE` in both
`killer.js` and `contracts.js`. -/
def DARTBOARD_SEQUENCE : List Int :=
  [20, 1, 18, 4, 13, 6, 10, 15, 2, 17, 3, 19, 7, 16, 8, 11, 14, 9, 12, 5]

/-- `KILLER_MAX_LIVES` -/
def KILLER_MAX_LIVES : Int := 9

/-- `KILLER_ELIMINATION_THRESHOLD` -/
def KILLER_ELIMINATION_THRESHOLD : Int := -1

/-- `CLOCK_POSITION_BULL` -/
def CLOCK_POSITION_BULL : Int := 11

/-- `CLOCK_POSITION_FINISHED` -/
def CLOCK_POSITION_FINISHED : Int := 12

/-- `getMultiplier` from `clock.js` (and, identically, `getKillerMultiplier`
from `killer.js`): 2 for a double, 3 for a triple, 1 otherwise. -/
def getMultiplier (modifier : String) : Int :=
  if modifier = "double" then 2 else if modifier = "triple" then 3 else 1

/-- `getKillerMultiplier` from `killer.js` (same body as `getMultiplier`). -/
def getKillerMultiplier (modifier : String) : Int :=
  if modifier = "double" then 2 else if modifier = "triple" then 3 else 1

/-- `getAdjacentNumbers(num)` from `killer.js`: the two cyclic neighbours of a
segment in `DARTBOARD_SEQUENCE`; empty for 0, 25 or numbers not on the board.
JS computes `(idx - 1 + 20) % 20`, written here as `(idx + 19) % 20` since the
found index is a natural number. -/
def getAdjacentNumbers (num : Int) : List Int :=
  if num = 0 ∨ num = 25 then []
  else
    match List.findIdx? (fun n => n = num) DARTBOARD_SEQUENCE with
    | none => []
    | some idx =>
        [DARTBOARD_SEQUENCE.getD ((idx + 19) % 20) 0,
         DARTBOARD_SEQUENCE.getD ((idx + 1) % 20) 0]

/-! ## Clock engine (`clock.js`) -/

/-- The body of the per-dart loop of `processClockDarts`, for a position on
which iteration has not stopped: returns the new position and whether the dart
hit. Positions ≤ 10 target the number itself (advance by the multiplier,
capped at `CLOCK_POSITION_BULL`); any other position still iterated (i.e. 11)
targets Bull, where a 25 finishes. -/
def clockStep (pos : Int) (dart : Dart) : Int × Bool :=
  if pos ≤ 10 then
    if dart.number = pos then
      let advance := getMultiplier dart.modifier
      let p := pos + advance
      (if p > CLOCK_POSITION_BULL then CLOCK_POSITION_BULL else p, true)
    else (pos, false)
  else
    if dart.number = 25 then (CLOCK_POSITION_FINISHED, true) else (pos, false)

/-- The loop of `processClockDarts`: iterate the darts, breaking as soon as the
position has reached `CLOCK_POSITION_FINISHED`. The second component models
the JS variable `lastDartHit`, which is reassigned on every iterated dart to
`(i === darts.length - 1) && hit` — i.e. to `hit` only on the final list
element (`rest = []`), and to `false` otherwise. -/
def processClockAux : List Dart → Int → Bool → Int × Bool
  | [], pos, lastDartHit => (pos, lastDartHit)
  | dart :: rest, pos, lastDartHit =>
    if pos ≥ CLOCK_POSITION_FINISHED then (pos, lastDartHit)
    else
      let s := clockStep pos dart
      processClockAux rest s.1 (rest.isEmpty && s.2)

/-- The position reached by the loop of `processClockDarts` (ignoring the
`lastDartHit` tracking). -/
def clockPosRun : List Dart → Int → Int
  | [], pos => pos
  | dart :: rest, pos =>
    if pos ≥ CLOCK_POSITION_FINISHED then pos
    else clockPosRun rest (clockStep pos dart).1

/-- The result record of `processClockDarts`. -/
structure ClockResult where
  endPosition : Int
  lastDartHit : Bool
  finished : Bool
  extraTurn : Bool
deriving DecidableEq

/-- `processClockDarts(darts, startPosition)` from `clock.js`. A JS `null`
darts argument behaves as the empty list (see `processClockDartsO`). -/
def processClockDarts (darts : List Dart) (startPosition : Int) : ClockResult :=
  if darts.length = 0 then
    { endPosition := startPosition, lastDartHit := false, finished := false, extraTurn := false }
  else
    let r := processClockAux darts startPosition false
    let finished : Bool := decide (r.1 ≥ CLOCK_POSITION_FINISHED)
    { endPosition := if finished then CLOCK_POSITION_FINISHED else r.1
      lastDartHit := r.2
      finished := finished
      extraTurn := r.2 && !finished }

/-- `processClockDarts` on a possibly-`null` darts argument
(`if (!darts || darts.length === 0)`). -/
def processClockDartsO (darts : Option (List Dart)) (startPosition : Int) : ClockResult :=
  match darts with
  | none => { endPosition := startPosition, lastDartHit := false, finished := false,
              extraTurn := false }
  | some ds => processClockDarts ds startPosition

/-- Restatement of the specified per-dart hit condition for Clock, written
from the spec's words: at a number target (≤ 10) a dart hits iff it is that
number; at Bull (11) it hits iff it is a 25 with the single or double ring. -/
def clockSpecHit (pos : Int) (dart : Dart) : Bool :=
  if pos ≤ 10 then decide (dart.number = pos)
  else if pos = 11 then
    decide (dart.number = 25 ∧ (dart.modifier = "single" ∨ dart.modifier = "double"))
  else false

/-- Restatement of the specified advancement on a hit, written from the spec's
words: advance by the multiplier capped at 11 from a number target, and jump
directly to the finished sentinel 12 from Bull. -/
def clockSpecAdvance (pos : Int) (dart : Dart) : Int :=
  if pos ≤ 10 then min (pos + getMultiplier dart.modifier) 11 else 12

/-- Restatement of the specified Clock turn evaluation, written from the
spec's words: darts evaluated in order against the current position,
non-matching darts are no-ops, and iteration stops at the finished
sentinel 12. -/
def clockSpecRun : List Dart → Int → Int
  | [], pos => pos
  | dart :: rest, pos =>
    if pos ≥ 12 then pos
    else if clockSpecHit pos dart then clockSpecRun rest (clockSpecAdvance pos dart)
    else clockSpecRun rest pos

/-! ## Killer engine (`killer.js`) -/

/-- A life-change event `{ player, delta, reason }` emitted by
`processKillerDarts`. -/
structure KChange where
  player : String
  delta : Int
  reason : String
deriving DecidableEq

/-- The fields of the `gameState` argument of `processKillerDarts`. The
per-player JS objects are modelled as functions (only lookups are observable
here); `killerIsKiller`/`killerEliminated` read with JS falsy defaulting. -/
structure KillerState where
  players : List String
  killerNumbers : String → Int
  killerIsKiller : String → Bool
  killerLives : String → Int
  killerEliminated : String → Bool

/-- The dart loop of `processKillerDarts`, threading the turn-local
`isThrowerKiller` flag and `runningLives` tally exactly as the source does:
misses and bulls are skipped entirely; a gain event is pushed for the
thrower's own or adjacent number; the flag is raised after adding the gain;
and attack events are emitted only when the flag was set before this dart. -/
def processKillerDartsAux (thrower : String) (throwerNum : Int) (throwerAdj : List Int)
    (st : KillerState) : List Dart → Bool → Int → List KChange
  | [], _, _ => []
  | dart :: rest, isThrowerKiller, runningLives =>
    if dart.number = 0 ∨ dart.number = 25 then
      processKillerDartsAux thrower throwerNum throwerAdj st rest isThrowerKiller runningLives
    else
      let multiplier := getKillerMultiplier dart.modifier
      let wasKillerBeforeDart := isThrowerKiller
      let gain : List KChange × Int :=
        if dart.number = throwerNum then ([⟨thrower, 3 * multiplier, "own"⟩], 3 * multiplier)
        else if throwerAdj.contains dart.number then
          ([⟨thrower, 1 * multiplier, "adjacent"⟩], 1 * multiplier)
        else ([], 0)
      let runningLives' := runningLives + gain.2
      let isKiller' := isThrowerKiller || decide (runningLives' ≥ KILLER_MAX_LIVES)
      let attacks : List KChange :=
        if wasKillerBeforeDart then
          st.players.filterMap (fun otherPlayer =>
            if otherPlayer = thrower || st.killerEliminated otherPlayer then none
            else
              let otherNum := st.killerNumbers otherPlayer
              let otherAdj := getAdjacentNumbers otherNum
              if dart.number = otherNum then
                some ⟨otherPlayer, -3 * multiplier, "killed"⟩
              else if otherAdj.contains dart.number then
                some ⟨otherPlayer, -1 * multiplier, "adj-killed"⟩
              else none)
        else []
      gain.1 ++ attacks ++
        processKillerDartsAux thrower throwerNum throwerAdj st rest isKiller' runningLives'

/-- `processKillerDarts(thrower, darts, gameState)` from `killer.js`. -/
def processKillerDarts (thrower : String) (darts : List Dart) (st : KillerState) :
    List KChange :=
  processKillerDartsAux thrower (st.killerNumbers thrower)
    (getAdjacentNumbers (st.killerNumbers thrower)) st darts
    (st.killerIsKiller thrower) (st.killerLives thrower)

/-- The life gain a single dart yields for the thrower (0 for skipped darts
and for darts matching neither the own nor an adjacent number). -/
def killerGain (throwerNum : Int) (throwerAdj : List Int) (dart : Dart) : Int :=
  if dart.number = 0 ∨ dart.number = 25 then 0
  else if dart.number = throwerNum then 3 * getKillerMultiplier dart.modifier
  else if throwerAdj.contains dart.number then 1 * getKillerMultiplier dart.modifier
  else 0

/-- The thrower's killer flag and running life tally after a list of darts,
starting from a given flag and tally: the exact threading of
`processKillerDartsAux`, separated from event emission. -/
def killerStatusRun (throwerNum : Int) (throwerAdj : List Int) :
    List Dart → Bool → Int → Bool × Int
  | [], isKiller, lives => (isKiller, lives)
  | dart :: rest, isKiller, lives =>
    if dart.number = 0 ∨ dart.number = 25 then
      killerStatusRun throwerNum throwerAdj rest isKiller lives
    else
      let lives' := lives + killerGain throwerNum throwerAdj dart
      killerStatusRun throwerNum throwerAdj rest
        (isKiller || decide (lives' ≥ KILLER_MAX_LIVES)) lives'

/-- The events a single dart contributes, given the thrower's killer status as
of the start of that dart: the gain event (if any) followed, only when the
thrower was already a killer, by one attack event per non-eliminated opponent
whose own number (−3×multiplier) or adjacent number (−1×multiplier) it hits. -/
def killerDartEvents (thrower : String) (throwerNum : Int) (throwerAdj : List Int)
    (st : KillerState) (wasKillerBeforeDart : Bool) (dart : Dart) : List KChange :=
  if dart.number = 0 ∨ dart.number = 25 then []
  else
    let multiplier := getKillerMultiplier dart.modifier
    (if dart.number = throwerNum then [⟨thrower, 3 * multiplier, "own"⟩]
     else if throwerAdj.contains dart.number then [⟨thrower, 1 * multiplier, "adjacent"⟩]
     else []) ++
    (if wasKillerBeforeDart then
      st.players.filterMap (fun otherPlayer =>
        if otherPlayer = thrower || st.killerEliminated otherPlayer then none
        else
          let otherNum := st.killerNumbers otherPlayer
          let otherAdj := getAdjacentNumbers otherNum
          if dart.number = otherNum then
            some ⟨otherPlayer, -3 * multiplier, "killed"⟩
          else if otherAdj.contains dart.number then
            some ⟨otherPlayer, -1 * multiplier, "adj-killed"⟩
          else none)
     else [])

/-! ### `applyKillerChanges` -/

/-- Lookup in an association list modelling a JS object keyed by player name,
with 0 for an absent key. (In `applyKillerChanges` every looked-up player is
a key of the `lives` object in the intended domain; JS would produce `NaN`
for a missing one, which has no `Int` counterpart, so theorems below carry
the membership hypothesis explicitly.) -/
def assocGetD (l : List (String × Int)) (p : String) : Int :=
  (((l.find? (fun e => e.1 = p)).map (fun e => e.2)).getD 0)

/-- `aggregated[c.player] += c.delta` with JS object semantics: update the
existing entry in place, or append a fresh one. (The `!aggregated[c.player]`
falsy check in the source merely initialises the slot to 0.) -/
def aggAdd (acc : List (String × Int)) (p : String) (delta : Int) : List (String × Int) :=
  if acc.any (fun e => e.1 = p) then
    acc.map (fun e => if e.1 = p then (e.1, e.2 + delta) else e)
  else acc ++ [(p, delta)]

/-- The `aggregated` object: per-player summed deltas, keyed in order of first
occurrence. -/
def aggregateChanges (changes : List KChange) : List (String × Int) :=
  changes.foldl (fun acc c => aggAdd acc c.player c.delta) []

/-- `newLives[player] = Math.min(newLives[player] + delta, KILLER_MAX_LIVES)`
for one aggregated entry. -/
def livesUpdate (l : List (String × Int)) (p : String) (delta : Int) : List (String × Int) :=
  if l.any (fun e => e.1 = p) then
    l.map (fun e => if e.1 = p then (e.1, min (e.2 + delta) KILLER_MAX_LIVES) else e)
  else l ++ [(p, min (assocGetD l p + delta) KILLER_MAX_LIVES)]

/-- The result record of `applyKillerChanges`. -/
structure KillerApplyResult where
  lives : List (String × Int)
  isKiller : String → Bool
  eliminated : String → Bool
  newlyEliminated : List String

/-- The body of the killer-status loop of `applyKillerChanges`
(`newIsKiller[player] = true` for a non-eliminated player at ≥ 9 lives),
as a fold step over the updated-lives object's keys. -/
def killerFlagStep (eliminated : String → Bool) (newLives : List (String × Int))
    (f : String → Bool) (p : String) : String → Bool :=
  if !eliminated p && decide (assocGetD newLives p ≥ KILLER_MAX_LIVES) then
    fun q => if q = p then true else f q
  else f

/-- The body of the elimination loop of `applyKillerChanges`, threading the
evolving `newEliminated` object and the `newlyEliminated` array. -/
def killerElimStep (newLives : List (String × Int))
    (e : (String → Bool) × List String) (p : String) : (String → Bool) × List String :=
  if !e.1 p && decide (assocGetD newLives p ≤ KILLER_ELIMINATION_THRESHOLD) then
    (fun q => if q = p then true else e.1 q, e.2 ++ [p])
  else e

/-- `applyKillerChanges(changes, lives, isKiller, eliminated)` from
`killer.js`: aggregate the deltas per player, apply each player's net delta
capped at `KILLER_MAX_LIVES`, then raise killer flags for non-eliminated
players at ≥ 9 lives, then mark non-eliminated players at ≤ −1 lives as
eliminated, collecting them in `newlyEliminated` in key order. -/
def applyKillerChanges (changes : List KChange) (lives : List (String × Int))
    (isKiller : String → Bool) (eliminated : String → Bool) : KillerApplyResult :=
  let aggregated := aggregateChanges changes
  let newLives := aggregated.foldl (fun nl e => livesUpdate nl e.1 e.2) lives
  let keys := newLives.map (fun e => e.1)
  let newIsKiller := keys.foldl (killerFlagStep eliminated newLives) isKiller
  let elim := keys.foldl (killerElimStep newLives) (eliminated, [])
  ⟨newLives, newIsKiller, elim.1, elim.2⟩

/-- Sum of the deltas of all events for one player. -/
def sumDeltas (changes : List KChange) (p : String) : Int :=
  ((changes.filter (fun c => c.player = p)).map (fun c => c.delta)).sum

/-- Whether a player has at least one event in the list. -/
def hasChange (changes : List KChange) (p : String) : Bool :=
  changes.any (fun c => c.player = p)

/-- The keys of an association list modelling a JS object (`Object.keys`). -/
def keysOf (l : List (String × Int)) : List String :=
  l.map (fun e => e.1)

/-! ## Contract engine (`contracts.js`) -/

/-- Contract IDs in order of play, `CONTRACT_IDS`. -/
def CONTRACT_IDS : List String :=
  ["capital", "20", "side", "19", "3row", "18", "color", "17", "double", "16", "triple",
   "15", "57", "14", "bull"]

/-- `DART_SINGLE_COLORS`: single-ring segment colours. -/
def DART_SINGLE_COLORS : List (Int × String) :=
  [(20, "black"), (1, "white"), (18, "black"), (4, "white"), (13, "black"), (6, "white"),
   (10, "black"), (15, "white"), (2, "black"), (17, "white"), (3, "black"), (19, "white"),
   (7, "black"), (16, "white"), (8, "black"), (11, "white"), (14, "black"), (9, "white"),
   (12, "black"), (5, "white")]

/-- `DART_RING_COLORS`: double/triple-ring segment colours. -/
def DART_RING_COLORS : List (Int × String) :=
  [(20, "red"), (1, "green"), (18, "red"), (4, "green"), (13, "red"), (6, "green"),
   (10, "red"), (15, "green"), (2, "red"), (17, "green"), (3, "red"), (19, "green"),
   (7, "red"), (16, "green"), (8, "red"), (11, "green"), (14, "red"), (9, "green"),
   (12, "red"), (5, "green")]

/-- `getDartColor(dart)`: `none` models the JS `null` (miss, unknown number). -/
def getDartColor (dart : Dart) : Option String :=
  if dart.number = 25 then some (if dart.modifier = "double" then "red" else "green")
  else if dart.number = 0 then none
  else if dart.modifier = "double" ∨ dart.modifier = "triple" then
    (DART_RING_COLORS.find? (fun e => e.1 = dart.number)).map (fun e => e.2)
  else
    (DART_SINGLE_COLORS.find? (fun e => e.1 = dart.number)).map (fun e => e.2)

/-- The `isSingleBull` helper inside `areAdjacent`. -/
def isSingleBull (dart : Dart) : Bool :=
  decide (dart.number = 25 ∧ dart.modifier = "single")

/-- `areAdjacent(dart1, dart2, dart3)` on three present darts: any single bull
makes the triple adjacent; otherwise the three numbers, with misses and bulls
dropped, must cover some block of three consecutive positions of
`DARTBOARD_SEQUENCE`. -/
def areAdjacent (dart1 dart2 dart3 : Dart) : Bool :=
  if isSingleBull dart1 || isSingleBull dart2 || isSingleBull dart3 then true
  else
    let nums := [dart1.number, dart2.number, dart3.number].filter
      (fun n => decide (n ≠ 0 ∧ n ≠ 25))
    if nums.length < 3 then false
    else
      (List.range 20).any (fun i =>
        nums.contains (DARTBOARD_SEQUENCE.getD i 0) &&
        nums.contains (DARTBOARD_SEQUENCE.getD ((i + 1) % 20) 0) &&
        nums.contains (DARTBOARD_SEQUENCE.getD ((i + 2) % 20) 0))

/-- `areAdjacent` as called on possibly-absent darts (`darts[1]` on a 1-dart
list is `undefined` in JS). The source checks `isSingleBull(dart1)`,
`isSingleBull(dart2)`, `isSingleBull(dart3)` left to right with
short-circuiting, so a leading single bull returns `true` before the missing
dart is dereferenced; reading `.number`/`.modifier` of a missing dart throws
(`none` here). -/
def areAdjacentO : Option Dart → Option Dart → Option Dart → Option Bool
  | some d1, some d2, some d3 => some (areAdjacent d1 d2 d3)
  | some d1, some d2, none =>
      if isSingleBull d1 || isSingleBull d2 then some true else none
  | some d1, none, _ => if isSingleBull d1 then some true else none
  | none, _, _ => none

/-- Insert into an ascending list, keeping it ascending. -/
def insertSorted (x : Int) : List Int → List Int
  | [] => [x]
  | y :: ys => if x ≤ y then x :: y :: ys else y :: insertSorted x ys

/-- Ascending insertion sort: the JS `sort((a, b) => a - b)` of
`areConsecutive` (at most three numbers; only the sorted order matters). -/
def sortInts : List Int → List Int
  | [] => []
  | x :: xs => insertSorted x (sortInts xs)

/-- `areConsecutive(num1, num2, num3)`: missing arguments (JS `undefined`)
and the sentinels 0/25 are filtered out; the remaining numbers, sorted
ascending, must be three consecutive integers. -/
def areConsecutive (num1 num2 num3 : Option Int) : Bool :=
  let nums := sortInts (([num1, num2, num3].filterMap id).filter
    (fun n => decide (n ≠ 0 ∧ n ≠ 25)))
  if nums.length < 3 then false
  else decide (nums.getD 1 0 = nums.getD 0 0 + 1 ∧ nums.getD 2 0 = nums.getD 1 0 + 1)

/-- The number of distinct non-`null` colours among the darts
(`new Set(colors).size`). -/
def distinctColorCount (darts : List Dart) : Nat :=
  ((darts.filterMap getDartColor).dedup).length

/-- `getValidContracts(darts)` from `contracts.js` (Yahtzee mode). The ids are
pushed in the source's fixed order: capital, the numeric contracts 20 down to
14, then side, 3row, color, double, triple, 57, bull. The result is `none`
when the call would throw (the `areAdjacent` call dereferences `darts[1]` or
`darts[2]` on a short list). -/
def getValidContracts (darts : List Dart) : Option (List String) :=
  if darts.length = 0 then some []
  else
    let numbers := darts.map (fun d => d.number)
    let modifiers := darts.map (fun d => d.modifier)
    match areAdjacentO (darts.get? 0) (darts.get? 1) (darts.get? 2) with
    | none => none
    | some adjacent =>
      some (["capital"]
        ++ (([20, 19, 18, 17, 16, 15, 14] : List Int).filter
              (fun n => numbers.contains n)).map (fun n => toString n)
        ++ (if adjacent then ["side"] else [])
        ++ (if areConsecutive (numbers.get? 0) (numbers.get? 1) (numbers.get? 2) then
              ["3row"] else [])
        ++ (if distinctColorCount darts ≥ 3 then ["color"] else [])
        ++ (if modifiers.contains "double" then ["double"] else [])
        ++ (if modifiers.contains "triple" then ["triple"] else [])
        ++ (if (darts.map (fun d => d.score)).sum = 57 then ["57"] else [])
        ++ (if numbers.contains 25 then ["bull"] else []))

/-- `getValidContracts` on a possibly-`null` darts argument. -/
def getValidContractsO (darts : Option (List Dart)) : Option (List String) :=
  match darts with
  | none => some []
  | some ds => getValidContracts ds

/-- `parseInt(contractId)` as called in `contracts.js`. Only the numeric
contract ids ever reach the parse with a numeric string (the other switch
cases fire first), so the parse is modelled by direct comparison with them;
every other contract id yields `none` (JS `NaN`), exactly as `parseInt` does
on the non-numeric contract ids. -/
def parseContractId (s : String) : Option Int :=
  if s = "20" then some 20
  else if s = "19" then some 19
  else if s = "18" then some 18
  else if s = "17" then some 17
  else if s = "16" then some 16
  else if s = "15" then some 15
  else if s = "14" then some 14
  else none

/-- `calculateContractScore(darts, contractId)` from `contracts.js`. For the
numeric contracts only matching-number darts count; `double`/`triple`/`bull`
sum only their matching darts; every other id sums all dart scores.
(The fallback 0 branch is unreachable for the numeric contracts.) -/
def calculateContractScore (darts : List Dart) (contractId : String) : Int :=
  if darts.length = 0 then 0
  else if ["20", "19", "18", "17", "16", "15", "14"].contains contractId then
    match parseContractId contractId with
    | some n => ((darts.filter (fun d => d.number = n)).map (fun d => d.score)).sum
    | none => 0
  else
    match contractId with
    | "double" => ((darts.filter (fun d => d.modifier = "double")).map (fun d => d.score)).sum
    | "triple" => ((darts.filter (fun d => d.modifier = "triple")).map (fun d => d.score)).sum
    | "bull" => ((darts.filter (fun d => d.number = 25)).map (fun d => d.score)).sum
    | _ => (darts.map (fun d => d.score)).sum

/-- `calculateContractScore` on a possibly-`null` darts argument. -/
def calculateContractScoreO (darts : Option (List Dart)) (contractId : String) : Int :=
  match darts with
  | none => 0
  | some ds => calculateContractScore ds contractId

/-- `checkContractRequirements(darts, contractId)` from `contracts.js`
(Classic mode qualification). The result is `none` when the call would throw
(the `side` branch dereferences a missing dart). -/
def checkContractRequirements (darts : List Dart) (contractId : String) : Option Bool :=
  if darts.length = 0 then some false
  else
    let numbers := darts.map (fun d => d.number)
    let modifiers := darts.map (fun d => d.modifier)
    match contractId with
    | "capital" => some true
    | "side" => areAdjacentO (darts.get? 0) (darts.get? 1) (darts.get? 2)
    | "3row" => some (areConsecutive (numbers.get? 0) (numbers.get? 1) (numbers.get? 2))
    | "color" => some (decide (distinctColorCount darts ≥ 3))
    | "double" => some (modifiers.contains "double")
    | "triple" => some (modifiers.contains "triple")
    | "57" => some (decide ((darts.map (fun d => d.score)).sum = 57))
    | "bull" => some (numbers.contains 25)
    | other =>
      match parseContractId other with
      | some n => some (numbers.contains n)
      | none => some false

/-- `checkContractRequirements` on a possibly-`null` darts argument. -/
def checkContractRequirementsO (darts : Option (List Dart)) (contractId : String) :
    Option Bool :=
  match darts with
  | none => some false
  | some ds => checkContractRequirements ds contractId

/-- `createDart(number, modifier, score)` from `contracts.js`; `none` for the
score argument is the JS `null` default, deriving the score from the number
and modifier. -/
def createDart (number : Int) (modifier : String) (score : Option Int) : Dart :=
  match score with
  | some s => ⟨number, modifier, s⟩
  | none =>
    if number = 0 then ⟨number, modifier, 0⟩
    else if number = 25 then ⟨number, modifier, if modifier = "double" then 50 else 25⟩
    else
      ⟨number, modifier,
       number * (if modifier = "triple" then 3 else if modifier = "double" then 2 else 1)⟩

/-- The order in which `getValidContracts` pushes qualifying ids (capital,
numeric contracts descending, then the special contracts). This is not the
play order `CONTRACT_IDS`. -/
def YAHTZEE_PUSH_ORDER : List String :=
  ["capital", "20", "19", "18", "17", "16", "15", "14", "side", "3row", "color", "double",
   "triple", "57", "bull"]

/-- A block of three consecutive positions of the circular board sequence,
starting at index `i`. -/
def windowAt (i : Nat) : List Int :=
  [DARTBOARD_SEQUENCE.getD (i % 20) 0, DARTBOARD_SEQUENCE.getD ((i + 1) % 20) 0,
   DARTBOARD_SEQUENCE.getD ((i + 2) % 20) 0]

/-- The spec's reading of the side contract on three plain segment numbers:
the numbers hit are exactly some block of three consecutive board positions. -/
def sideSpec (a b c : Int) : Prop :=
  ∃ i < 20, ∀ n : Int, (n = a ∨ n = b ∨ n = c) ↔ n ∈ windowAt i

/-! ## Clock winner determination -/

/-- Modelled from the spec: the implementation of `determineClockWinner` is
not part of the shared `src` modules (only its Jest test suite and API
documentation are present). Per the spec: a non-empty `finishOrder` makes its
first entry the sole winner with no tie; otherwise every player's position
(missing map entries defaulting to the starting position 1) is compared and
all players sharing the maximum win, a tie iff more than one does. -/
def determineClockWinner (players : List String) (positions : String → Option Int)
    (finishOrder : List String) : List String × Bool :=
  match finishOrder with
  | w :: _ => ([w], false)
  | [] =>
    let posOf := fun p => (positions p).getD 1
    let maxPos := ((players.map posOf).max?).getD 1
    let winners := players.filter (fun p => posOf p = maxPos)
    (winners, decide (winners.length > 1))

/-! ## Lemmas: Clock engine -/

theorem processClockAux_fst (darts : List Dart) :
    ∀ pos lastDartHit, (processClockAux darts pos lastDartHit).1 = clockPosRun darts pos := by
  induction darts with
  | nil => intro pos lastDartHit; rfl
  | cons d rest ih =>
    intro pos lastDartHit
    simp only [processClockAux, clockPosRun]
    split
    · rfl
    · exact ih _ _

theorem clockPosRun_eq_spec (darts : List Dart)
    (hvalid : ∀ d ∈ darts, d.number = 25 → d.modifier = "single" ∨ d.modifier = "double") :
    ∀ pos, pos ≤ 12 →
      clockPosRun darts pos = clockSpecRun darts pos ∧ clockSpecRun darts pos ≤ 12 := by
  induction darts with
  | nil => intro pos hpos; exact ⟨rfl, hpos⟩
  | cons d rest ih =>
    intro pos hpos
    have hd := hvalid d (List.mem_cons_self d rest)
    have hrest : ∀ x ∈ rest, x.number = 25 → x.modifier = "single" ∨ x.modifier = "double" :=
      fun x hx => hvalid x (List.mem_cons_of_mem d hx)
    by_cases hfin : pos ≥ CLOCK_POSITION_FINISHED
    · have h12 : pos ≥ 12 := hfin
      simp only [clockPosRun, clockSpecRun, if_pos hfin, if_pos h12]
      exact ⟨by trivial, hpos⟩
    · have h12 : ¬ pos ≥ 12 := hfin
      simp only [clockPosRun, clockSpecRun, if_neg hfin, if_neg h12]
      by_cases hnum : pos ≤ 10
      · by_cases hhit : d.number = pos
        · have hstep : (clockStep pos d).1 = clockSpecAdvance pos d := by
            simp only [clockStep, clockSpecAdvance, if_pos hnum, if_pos hhit,
              CLOCK_POSITION_BULL]
            omega
          have hspec : clockSpecHit pos d = true := by
            simp [clockSpecHit, if_pos hnum, hhit]
          rw [hspec, if_pos rfl, hstep]
          refine ih hrest _ ?_
          simp only [clockSpecAdvance, if_pos hnum]
          omega
        · have hstep : (clockStep pos d).1 = pos := by
            simp only [clockStep, if_pos hnum, if_neg hhit]
          have hspec : clockSpecHit pos d = false := by
            simp [clockSpecHit, if_pos hnum, hhit]
          rw [hspec, hstep]
          simp only [Bool.false_eq_true, if_neg Bool.false_ne_true]
          exact ih hrest pos hpos
      · -- position is exactly 11 here
        have hpos11 : pos = 11 := by
          simp only [CLOCK_POSITION_FINISHED] at hfin; omega
        subst hpos11
        by_cases hbull : d.number = 25
        · have hstep : (clockStep 11 d).1 = 12 := by
            simp only [clockStep, if_neg hnum, if_pos hbull, CLOCK_POSITION_FINISHED]
          have hspec : clockSpecHit 11 d = true := by
            simp only [clockSpecHit]
            norm_num
            exact ⟨hbull, hd hbull⟩
          rw [hspec, if_pos rfl, hstep]
          have hadv : clockSpecAdvance 11 d = 12 := by
            simp [clockSpecAdvance]
          rw [hadv]
          exact ih hrest 12 (by omega)
        · have hstep : (clockStep 11 d).1 = 11 := by
            simp only [clockStep, if_neg hnum, if_neg hbull]

          have hspec : clockSpecHit 11 d = false := by
            simp [clockSpecHit, hbull]
          rw [hspec, hstep]
          simp only [Bool.false_eq_true, if_neg Bool.false_ne_true]
          exact ih hrest 11 (by omega)

/-- Claim C6: `processClockDarts` evaluates darts in order against the current
position exactly as specified: while the position is ≤ 10 a dart hits iff its
number equals the position, advancing by the multiplier clamped to at most 11;
at position 11 a (single- or double-ring) 25 finishes, jumping directly to
the sentinel 12; non-matching darts are no-ops; iteration stops at 12. Stated
as equality of the reached position with the spec-side evaluator
`clockSpecRun`, for any turn of valid darts (no triple bull) from a start
position 1–11. -/
theorem clock_advancement_follows_spec (darts : List Dart) (start : Int)
    (hvalid : ∀ d ∈ darts, d.number = 25 → d.modifier = "single" ∨ d.modifier = "double")
    (hlo : 1 ≤ start) (hhi : start ≤ 11) :
    (processClockDarts darts start).endPosition = clockSpecRun darts start ∧
    ((processClockDarts darts start).finished = true ↔ clockSpecRun darts start = 12) := by
  obtain ⟨hrun, hle⟩ := clockPosRun_eq_spec darts hvalid start (by omega)
  by_cases hnil : darts.length = 0
  · have hd : darts = [] := List.eq_nil_of_length_eq_zero hnil
    subst hd
    constructor
    · simp [processClockDarts, clockSpecRun]
    · simp only [processClockDarts, if_pos rfl, clockSpecRun]
      constructor
      · intro h; exact absurd h (by simp)
      · intro h; omega
  · have h1 : (processClockAux darts start false).1 = clockSpecRun darts start := by
      rw [processClockAux_fst]; exact hrun
    simp only [processClockDarts, if_neg hnil, h1]
    constructor
    · by_cases h12 : clockSpecRun darts start ≥ CLOCK_POSITION_FINISHED
      · simp only [decide_eq_true (by exact h12), if_pos rfl]
        simp only [CLOCK_POSITION_FINISHED] at h12 ⊢
        omega
      · simp [h12]
    · by_cases h12 : clockSpecRun darts start ≥ CLOCK_POSITION_FINISHED
      · simp only [decide_eq_true (by exact h12)]
        simp only [CLOCK_POSITION_FINISHED] at h12
        constructor
        · intro _; omega
        · intro _; trivial
      · simp only [decide_eq_false (by exact h12), Bool.false_eq_true, false_iff]
        simp only [CLOCK_POSITION_FINISHED] at h12
        omega

/-- Witness for `clock_advancement_follows_spec`: a triple 9 from position 9
clamps to Bull (11), and the following 25 finishes at 12. -/
theorem clock_advancement_follows_spec_witness :
    ((∀ d ∈ ([⟨9, "triple", 27⟩, ⟨25, "single", 25⟩] : List Dart),
        d.number = 25 → d.modifier = "single" ∨ d.modifier = "double")
      ∧ (1 : Int) ≤ 9 ∧ (9 : Int) ≤ 11)
    ∧ ((processClockDarts [⟨9, "triple", 27⟩, ⟨25, "single", 25⟩] 9).endPosition =
          clockSpecRun [⟨9, "triple", 27⟩, ⟨25, "single", 25⟩] 9
       ∧ ((processClockDarts [⟨9, "triple", 27⟩, ⟨25, "single", 25⟩] 9).finished = true ↔
          clockSpecRun [⟨9, "triple", 27⟩, ⟨25, "single", 25⟩] 9 = 12)) :=
  ⟨⟨by decide, by norm_num, by norm_num⟩,
   clock_advancement_follows_spec _ 9 (by decide) (by norm_num) (by norm_num)⟩

theorem processClockAux_cons (d : Dart) (rest : List Dart) (pos : Int) (last : Bool) :
    processClockAux (d :: rest) pos last =
      if pos ≥ CLOCK_POSITION_FINISHED then (pos, last)
      else processClockAux rest (clockStep pos d).1 (rest.isEmpty && (clockStep pos d).2) := rfl

theorem clockPosRun_cons (d : Dart) (rest : List Dart) (pos : Int) :
    clockPosRun (d :: rest) pos =
      if pos ≥ CLOCK_POSITION_FINISHED then pos
      else clockPosRun rest (clockStep pos d).1 := rfl

theorem processClockAux_snd (darts : List Dart) :
    ∀ pos, (processClockAux darts pos false).2 =
      match darts.getLast? with
      | none => false
      | some lastDart =>
        decide (clockPosRun darts.dropLast pos < CLOCK_POSITION_FINISHED) &&
        (clockStep (clockPosRun darts.dropLast pos) lastDart).2 := by
  induction darts with
  | nil => intro pos; rfl
  | cons d rest ih =>
    intro pos
    by_cases hfin : pos ≥ CLOCK_POSITION_FINISHED
    · cases rest with
      | nil =>
        rw [processClockAux_cons, if_pos hfin]
        simp only [List.getLast?_singleton, List.dropLast_single, clockPosRun]
        have : ¬ pos < CLOCK_POSITION_FINISHED := by omega
        simp [this]
      | cons r rs =>
        rw [processClockAux_cons, if_pos hfin]
        have hdl : (d :: r :: rs).dropLast = d :: (r :: rs).dropLast := rfl
        rw [List.getLast?_cons_cons, hdl, clockPosRun_cons, if_pos hfin]
        have : ¬ pos < CLOCK_POSITION_FINISHED := by omega
        cases h : (r :: rs).getLast? <;> simp [this]
    · cases rest with
      | nil =>
        rw [processClockAux_cons, if_neg hfin]
        simp only [List.isEmpty_nil, Bool.true_and, List.getLast?_singleton,
          List.dropLast_single, clockPosRun]
        have : pos < CLOCK_POSITION_FINISHED := by omega
        simp [this, processClockAux]
      | cons r rs =>
        rw [processClockAux_cons, if_neg hfin]
        simp only [List.isEmpty_cons, Bool.false_and]
        rw [ih]
        have hdl : (d :: r :: rs).dropLast = d :: (r :: rs).dropLast := rfl
        rw [List.getLast?_cons_cons, hdl, clockPosRun_cons, if_neg hfin]

/-- Claim C2 (amended): `lastDartHit` reflects the final *element* of the darts
list, not the final dart processed: it is true iff the position reached before
the final list element is still unfinished (< 12) and that final element hits
there. In particular, when the turn finishes before its last element the flag
is false even though the last dart actually processed was a hit. -/
theorem clock_lastDartHit_amended (darts : List Dart) (start : Int) :
    (processClockDarts darts start).lastDartHit =
      match darts.getLast? with
      | none => false
      | some lastDart =>
        decide (clockPosRun darts.dropLast start < CLOCK_POSITION_FINISHED) &&
        (clockStep (clockPosRun darts.dropLast start) lastDart).2 := by
  cases darts with
  | nil => rfl
  | cons d rest =>
    have h := processClockAux_snd (d :: rest) start
    simp only [processClockDarts, List.length_cons]
    rw [if_neg (by simp)]
    exact h

/-- Claim C2 (counterexample to the claim as stated): finishing on the first of
three darts stops iteration, so that first dart is the last dart processed and
it hit — yet `lastDartHit` is false, because only the final list element can
set it. -/
theorem clock_lastDartHit_cex :
    (processClockDarts [⟨25, "single", 25⟩, ⟨0, "miss", 0⟩, ⟨0, "miss", 0⟩] 11).lastDartHit
        = false
    ∧ (clockStep 11 ⟨25, "single", 25⟩).2 = true
    ∧ clockPosRun [⟨25, "single", 25⟩] 11 = CLOCK_POSITION_FINISHED := by
  decide

/-- Claim C10: the unspecified triple-bull dart (number 25, modifier `triple`)
is accepted everywhere and treated exactly like a single bull: `createDart`
derives score 25, `getDartColor` yields green, and at the Bull target
`processClockDarts` finishes on it. -/
theorem triple_bull_treated_as_single_bull :
    (createDart 25 "triple" none).score = 25
    ∧ getDartColor (createDart 25 "triple" none) = some "green"
    ∧ processClockDarts [createDart 25 "triple" none] 11 =
        { endPosition := 12, lastDartHit := true, finished := true, extraTurn := false } := by
  decide

/-! ## Lemmas: Killer dart processing -/

theorem killerStatusRun_nil (throwerNum : Int) (throwerAdj : List Int) (isKiller : Bool)
    (lives : Int) : killerStatusRun throwerNum throwerAdj [] isKiller lives = (isKiller, lives) :=
  rfl

theorem killerStatusRun_cons (throwerNum : Int) (throwerAdj : List Int) (dart : Dart)
    (rest : List Dart) (isKiller : Bool) (lives : Int) :
    killerStatusRun throwerNum throwerAdj (dart :: rest) isKiller lives =
      if dart.number = 0 ∨ dart.number = 25 then
        killerStatusRun throwerNum throwerAdj rest isKiller lives
      else
        killerStatusRun throwerNum throwerAdj rest
          (isKiller ||
            decide (lives + killerGain throwerNum throwerAdj dart ≥ KILLER_MAX_LIVES))
          (lives + killerGain throwerNum throwerAdj dart) := rfl

theorem killerDartEvents_skip (thrower : String) (throwerNum : Int) (throwerAdj : List Int)
    (st : KillerState) (wasKiller : Bool) (dart : Dart)
    (hskip : dart.number = 0 ∨ dart.number = 25) :
    killerDartEvents thrower throwerNum throwerAdj st wasKiller dart = [] := by
  simp [killerDartEvents, hskip]

theorem processKillerDartsAux_cons (thrower : String) (throwerNum : Int)
    (throwerAdj : List Int) (st : KillerState) (dart : Dart) (rest : List Dart)
    (isKiller : Bool) (lives : Int) :
    processKillerDartsAux thrower throwerNum throwerAdj st (dart :: rest) isKiller lives =
      if dart.number = 0 ∨ dart.number = 25 then
        processKillerDartsAux thrower throwerNum throwerAdj st rest isKiller lives
      else
        killerDartEvents thrower throwerNum throwerAdj st isKiller dart ++
          processKillerDartsAux thrower throwerNum throwerAdj st rest
            (isKiller ||
              decide (lives + killerGain throwerNum throwerAdj dart ≥ KILLER_MAX_LIVES))
            (lives + killerGain throwerNum throwerAdj dart) := by
  by_cases hskip : dart.number = 0 ∨ dart.number = 25
  · simp only [processKillerDartsAux, if_pos hskip]
  · simp only [processKillerDartsAux, killerDartEvents, killerGain, if_neg hskip]
    by_cases hown : dart.number = throwerNum
    · simp [hown, List.append_assoc]
    · by_cases hadj : dart.number ∈ throwerAdj
      · simp [hown, hadj, List.append_assoc]
      · simp [hown, hadj]

theorem processKillerDartsAux_eq_flatMap (thrower : String) (throwerNum : Int)
    (throwerAdj : List Int) (st : KillerState) (darts : List Dart) :
    ∀ isKiller lives, processKillerDartsAux thrower throwerNum throwerAdj st darts isKiller lives =
      (List.range darts.length).flatMap (fun i =>
        killerDartEvents thrower throwerNum throwerAdj st
          ((killerStatusRun throwerNum throwerAdj (darts.take i) isKiller lives).1)
          (darts.getD i ⟨0, "single", 0⟩)) := by
  induction darts with
  | nil => intro isKiller lives; rfl
  | cons dart rest ih =>
    intro isKiller lives
    rw [processKillerDartsAux_cons, List.length_cons, List.range_succ_eq_map,
      List.flatMap_cons, List.flatMap_map]
    simp only [Function.comp, List.take_succ_cons, List.getD_cons_succ, List.getD_cons_zero,
      List.take_zero, killerStatusRun_nil, killerStatusRun_cons]
    by_cases hskip : dart.number = 0 ∨ dart.number = 25
    · rw [if_pos hskip, killerDartEvents_skip thrower throwerNum throwerAdj st _ _ hskip,
        List.nil_append, ih isKiller lives]
      simp only [if_pos hskip]
    · rw [if_neg hskip, ih]
      simp only [if_neg hskip]

/-- Claim C1: per-dart killer gating in `processKillerDarts`. The event list is
the concatenation, over the darts in throw order, of that dart's events
computed with the killer status reached after only the *earlier* darts of the
turn (`killerStatusRun` on `darts.take i`): the flag a dart raises (by pushing
the running tally to ≥ 9) takes effect only from the next dart on. Moreover a
dart evaluated with the flag still false emits only `own`/`adjacent` gain
events — never `killed`/`adj-killed` — so no dart both makes its thrower a
killer and attacks; and `killerDartEvents` with the flag true emits exactly
one attack event per non-eliminated opponent whose own number (−3×multiplier)
or adjacent number (−1×multiplier) the dart hits. -/
theorem killer_attack_gating (thrower : String) (darts : List Dart) (st : KillerState) :
    (processKillerDarts thrower darts st =
      (List.range darts.length).flatMap (fun i =>
        killerDartEvents thrower (st.killerNumbers thrower)
          (getAdjacentNumbers (st.killerNumbers thrower)) st
          ((killerStatusRun (st.killerNumbers thrower)
              (getAdjacentNumbers (st.killerNumbers thrower)) (darts.take i)
              (st.killerIsKiller thrower) (st.killerLives thrower)).1)
          (darts.getD i ⟨0, "single", 0⟩)))
    ∧ ∀ (dart : Dart) (c : KChange),
        c ∈ killerDartEvents thrower (st.killerNumbers thrower)
            (getAdjacentNumbers (st.killerNumbers thrower)) st false dart →
          c.reason = "own" ∨ c.reason = "adjacent" := by
  constructor
  · exact processKillerDartsAux_eq_flatMap thrower (st.killerNumbers thrower)
      (getAdjacentNumbers (st.killerNumbers thrower)) st darts
      (st.killerIsKiller thrower) (st.killerLives thrower)
  · intro dart c hc
    by_cases hskip : dart.number = 0 ∨ dart.number = 25
    · rw [killerDartEvents_skip _ _ _ _ _ _ hskip] at hc
      exact absurd hc (List.not_mem_nil c)
    · simp only [killerDartEvents, if_neg hskip, Bool.false_eq_true, if_neg not_false,
        List.append_nil] at hc
      by_cases hown : dart.number = st.killerNumbers thrower
      · rw [if_pos hown, List.mem_singleton] at hc
        subst hc; left; rfl
      · rw [if_neg hown] at hc
        by_cases hadj :
            (getAdjacentNumbers (st.killerNumbers thrower)).contains dart.number = true
        · rw [if_pos hadj, List.mem_singleton] at hc
          subst hc; right; rfl
        · rw [if_neg hadj] at hc
          exact absurd hc (List.not_mem_nil c)


/-! ## Lemmas: association lists and `applyKillerChanges` -/

theorem assocGetD_nil (p : String) : assocGetD [] p = 0 := rfl

theorem assocGetD_cons (e : String × Int) (l : List (String × Int)) (p : String) :
    assocGetD (e :: l) p = if e.1 = p then e.2 else assocGetD l p := by
  by_cases h : e.1 = p
  · simp only [assocGetD, if_pos h]
    rw [List.find?_cons_of_pos]
    · rfl
    · simp [h]
  · simp only [assocGetD, if_neg h]
    rw [List.find?_cons_of_neg]
    simp [h]

theorem assocGetD_append (l₁ l₂ : List (String × Int)) (p : String) :
    assocGetD (l₁ ++ l₂) p =
      if l₁.any (fun e => e.1 = p) then assocGetD l₁ p else assocGetD l₂ p := by
  induction l₁ with
  | nil => simp [assocGetD_nil]
  | cons e l ih =>
    by_cases h : e.1 = p
    · simp [assocGetD_cons, h]
    · simp only [List.cons_append, assocGetD_cons, if_neg h, ih, List.any_cons]
      simp only [decide_eq_false h, Bool.false_or]

theorem find?_key_eq_none_of_any_eq_false (l : List (String × Int)) (p : String)
    (h : l.any (fun e => e.1 = p) = false) : l.find? (fun e => e.1 = p) = none := by
  rw [List.find?_eq_none]
  intro e he
  simp only [decide_eq_true_eq]
  intro hcon
  have : l.any (fun e => e.1 = p) = true := List.any_eq_true.mpr ⟨e, he, by simp [hcon]⟩
  rw [h] at this
  exact Bool.false_ne_true this

theorem assocGetD_eq_zero_of_any_eq_false (l : List (String × Int)) (p : String)
    (h : l.any (fun e => e.1 = p) = false) : assocGetD l p = 0 := by
  simp [assocGetD, find?_key_eq_none_of_any_eq_false l p h]

theorem assocGetD_map_add (l : List (String × Int)) (q p : String) (delta : Int) :
    assocGetD (l.map (fun e => if e.1 = q then (e.1, e.2 + delta) else e)) p =
      if p = q ∧ l.any (fun e => e.1 = p) = true then assocGetD l p + delta
      else assocGetD l p := by
  induction l with
  | nil => simp
  | cons e l ih =>
    simp only [List.map_cons, List.any_cons]
    by_cases hep : e.1 = p
    · by_cases heq : e.1 = q
      · have hpq : p = q := hep.symm.trans heq
        rw [if_pos heq, assocGetD_cons, assocGetD_cons]
        simp [hep, hpq]
      · have hpq : ¬ p = q := fun hh => heq (hep.trans hh)
        rw [if_neg heq, assocGetD_cons, assocGetD_cons, if_pos hep, if_pos hep]
        simp [hpq]
    · have hkey : (if e.1 = q then ((e.1 : String), e.2 + delta) else e).1 = e.1 := by
        by_cases heq : e.1 = q <;> simp [heq]
      rw [assocGetD_cons, hkey, if_neg hep, ih, assocGetD_cons, if_neg hep]
      simp only [decide_eq_false hep, Bool.false_or]

theorem assocGetD_map_min (l : List (String × Int)) (q p : String) (delta : Int) :
    assocGetD (l.map (fun e =>
        if e.1 = q then (e.1, min (e.2 + delta) KILLER_MAX_LIVES) else e)) p =
      if p = q ∧ l.any (fun e => e.1 = p) = true then
        min (assocGetD l p + delta) KILLER_MAX_LIVES
      else assocGetD l p := by
  induction l with
  | nil => simp
  | cons e l ih =>
    simp only [List.map_cons, List.any_cons]
    by_cases hep : e.1 = p
    · by_cases heq : e.1 = q
      · have hpq : p = q := hep.symm.trans heq
        rw [if_pos heq, assocGetD_cons, assocGetD_cons]
        simp [hep, hpq]
      · have hpq : ¬ p = q := fun hh => heq (hep.trans hh)
        rw [if_neg heq, assocGetD_cons, assocGetD_cons, if_pos hep, if_pos hep]
        simp [hpq]
    · have hkey : (if e.1 = q then
          ((e.1 : String), min (e.2 + delta) KILLER_MAX_LIVES) else e).1 = e.1 := by
        by_cases heq : e.1 = q <;> simp [heq]
      rw [assocGetD_cons, hkey, if_neg hep, ih, assocGetD_cons, if_neg hep]
      simp only [decide_eq_false hep, Bool.false_or]

theorem keysOf_map_keyfix (g : String × Int → String × Int) (l : List (String × Int))
    (hg : ∀ e, (g e).1 = e.1) : keysOf (l.map g) = keysOf l := by
  simp only [keysOf, List.map_map]
  apply List.map_congr_left
  intro e _
  exact hg e

theorem any_key_iff_mem_keysOf (l : List (String × Int)) (p : String) :
    l.any (fun e => e.1 = p) = true ↔ p ∈ keysOf l := by
  simp only [List.any_eq_true, keysOf, List.mem_map, decide_eq_true_eq]

theorem aggAdd_getD (acc : List (String × Int)) (q p : String) (delta : Int) :
    assocGetD (aggAdd acc q delta) p =
      if p = q then assocGetD acc p + delta else assocGetD acc p := by
  unfold aggAdd
  by_cases hany : acc.any (fun e => e.1 = q) = true
  · rw [if_pos hany, assocGetD_map_add]
    by_cases hpq : p = q
    · subst hpq
      simp [hany]
    · simp [hpq]
  · rw [if_neg hany, assocGetD_append]
    by_cases hpq : p = q
    · subst hpq
      have hf : acc.any (fun e => e.1 = p) = false := by
        rwa [Bool.not_eq_true] at hany
      rw [if_neg (by simp [hf]), if_pos rfl, assocGetD_eq_zero_of_any_eq_false acc p hf,
        assocGetD_cons, if_pos rfl]
      omega
    · rw [if_neg hpq]
      by_cases hpany : acc.any (fun e => e.1 = p) = true
      · rw [if_pos hpany]
      · have hf : acc.any (fun e => e.1 = p) = false := by
          rwa [Bool.not_eq_true] at hpany
        rw [if_neg (by simp [hf]), assocGetD_cons,
          if_neg (fun hh : q = p => hpq hh.symm), assocGetD_nil,
          assocGetD_eq_zero_of_any_eq_false acc p hf]

theorem aggAdd_keysOf (acc : List (String × Int)) (q : String) (delta : Int) :
    keysOf (aggAdd acc q delta) =
      if acc.any (fun e => e.1 = q) = true then keysOf acc else keysOf acc ++ [q] := by
  unfold aggAdd
  by_cases hany : acc.any (fun e => e.1 = q) = true
  · rw [if_pos hany, if_pos hany, keysOf_map_keyfix]
    intro e
    by_cases heq : e.1 = q <;> simp [heq]
  · rw [if_neg hany, if_neg hany]
    simp [keysOf]

theorem aggAdd_mem_keysOf (acc : List (String × Int)) (q : String) (delta : Int)
    (p : String) : p ∈ keysOf (aggAdd acc q delta) ↔ (p ∈ keysOf acc ∨ p = q) := by
  rw [aggAdd_keysOf]
  by_cases hany : acc.any (fun e => e.1 = q) = true
  · rw [if_pos hany]
    constructor
    · exact Or.inl
    · rintro (h | rfl)
      · exact h
      · exact (any_key_iff_mem_keysOf acc p).mp hany
  · rw [if_neg hany]
    simp

theorem sumDeltas_nil (p : String) : sumDeltas [] p = 0 := rfl

theorem sumDeltas_cons (c : KChange) (cs : List KChange) (p : String) :
    sumDeltas (c :: cs) p = (if c.player = p then c.delta else 0) + sumDeltas cs p := by
  simp only [sumDeltas, List.filter_cons]
  by_cases h : c.player = p
  · simp [h]
  · simp [h]

theorem hasChange_nil (p : String) : hasChange [] p = false := rfl

theorem hasChange_cons (c : KChange) (cs : List KChange) (p : String) :
    (hasChange (c :: cs) p = true) ↔ (c.player = p ∨ hasChange cs p = true) := by
  simp [hasChange]

theorem aggFold_getD (changes : List KChange) :
    ∀ acc p, assocGetD (changes.foldl (fun a c => aggAdd a c.player c.delta) acc) p =
      assocGetD acc p + sumDeltas changes p := by
  induction changes with
  | nil => intro acc p; simp [sumDeltas_nil]
  | cons c cs ih =>
    intro acc p
    rw [List.foldl_cons, ih, aggAdd_getD, sumDeltas_cons]
    by_cases h : c.player = p
    · rw [if_pos h.symm, if_pos h]
      ring
    · rw [if_neg (fun hh => h hh.symm), if_neg h]
      ring

theorem aggFold_mem_keysOf (changes : List KChange) :
    ∀ acc p, p ∈ keysOf (changes.foldl (fun a c => aggAdd a c.player c.delta) acc) ↔
      (p ∈ keysOf acc ∨ hasChange changes p = true) := by
  induction changes with
  | nil =>
    intro acc p
    simp [hasChange_nil]
  | cons c cs ih =>
    intro acc p
    rw [List.foldl_cons, ih, aggAdd_mem_keysOf]
    rw [hasChange_cons]
    constructor
    · rintro ((h | rfl) | h)
      · exact Or.inl h
      · exact Or.inr (Or.inl rfl)
      · exact Or.inr (Or.inr h)
    · rintro (h | rfl | h)
      · exact Or.inl (Or.inl h)
      · exact Or.inl (Or.inr rfl)
      · exact Or.inr h

theorem aggFold_keysOf_nodup (changes : List KChange) :
    ∀ acc, (keysOf acc).Nodup →
      (keysOf (changes.foldl (fun a c => aggAdd a c.player c.delta) acc)).Nodup := by
  induction changes with
  | nil => intro acc h; exact h
  | cons c cs ih =>
    intro acc h
    rw [List.foldl_cons]
    apply ih
    rw [aggAdd_keysOf]
    by_cases hany : acc.any (fun e => e.1 = c.player) = true
    · rw [if_pos hany]; exact h
    · rw [if_neg hany]
      rw [List.nodup_append]
      refine ⟨h, List.nodup_singleton _, ?_⟩
      rw [List.disjoint_singleton]
      exact fun hmem => hany ((any_key_iff_mem_keysOf acc c.player).mpr hmem)

theorem livesUpdate_getD (l : List (String × Int)) (q p : String) (delta : Int) :
    assocGetD (livesUpdate l q delta) p =
      if p = q then min (assocGetD l q + delta) KILLER_MAX_LIVES else assocGetD l p := by
  unfold livesUpdate
  by_cases hany : l.any (fun e => e.1 = q) = true
  · rw [if_pos hany, assocGetD_map_min]
    by_cases hpq : p = q
    · subst hpq
      simp [hany]
    · simp [hpq]
  · rw [if_neg hany, assocGetD_append]
    by_cases hpq : p = q
    · subst hpq
      have hf : l.any (fun e => e.1 = p) = false := by
        rwa [Bool.not_eq_true] at hany
      rw [if_neg (by simp [hf]), if_pos rfl, assocGetD_cons, if_pos rfl]
    · rw [if_neg hpq]
      by_cases hpany : l.any (fun e => e.1 = p) = true
      · rw [if_pos hpany]
      · have hf : l.any (fun e => e.1 = p) = false := by
          rwa [Bool.not_eq_true] at hpany
        rw [if_neg (by simp [hf]), assocGetD_cons,
          if_neg (fun hh : q = p => hpq hh.symm), assocGetD_nil,
          assocGetD_eq_zero_of_any_eq_false l p hf]

theorem livesUpdate_keysOf (l : List (String × Int)) (q : String) (delta : Int)
    (hq : q ∈ keysOf l) : keysOf (livesUpdate l q delta) = keysOf l := by
  unfold livesUpdate
  rw [if_pos ((any_key_iff_mem_keysOf l q).mpr hq), keysOf_map_keyfix]
  intro e
  by_cases heq : e.1 = q <;> simp [heq]

theorem livesFold_getD (ag : List (String × Int)) :
    ∀ (lives : List (String × Int)) (p : String), (keysOf ag).Nodup →
      assocGetD (ag.foldl (fun nl e => livesUpdate nl e.1 e.2) lives) p =
        if ag.any (fun e => e.1 = p) then
          min (assocGetD lives p + assocGetD ag p) KILLER_MAX_LIVES
        else assocGetD lives p := by
  induction ag with
  | nil =>
    intro lives p _
    simp [assocGetD_nil]
  | cons e ag ih =>
    intro lives p hnd
    have hnd' : (keysOf ag).Nodup := by
      simp only [keysOf, List.map_cons, List.nodup_cons] at hnd
      exact hnd.2
    have hnotmem : e.1 ∉ keysOf ag := by
      simp only [keysOf, List.map_cons, List.nodup_cons] at hnd
      exact hnd.1
    rw [List.foldl_cons, ih (livesUpdate lives e.1 e.2) p hnd', livesUpdate_getD]
    by_cases hp : p = e.1
    · subst hp
      have hnoag : ag.any (fun x => x.1 = e.1) = false := by
        rw [Bool.eq_false_iff]
        intro hcon
        exact hnotmem ((any_key_iff_mem_keysOf ag e.1).mp hcon)
      rw [hnoag]
      simp [assocGetD_cons]
    · have hne : ¬ e.1 = p := fun hh => hp hh.symm
      rw [List.any_cons, assocGetD_cons, if_neg hne, decide_eq_false hne, Bool.false_or]
      simp only [if_neg hp]

theorem livesFold_keysOf (ag : List (String × Int)) :
    ∀ (lives : List (String × Int)), (∀ e ∈ ag, e.1 ∈ keysOf lives) →
      keysOf (ag.foldl (fun nl e => livesUpdate nl e.1 e.2) lives) = keysOf lives := by
  induction ag with
  | nil => intro lives _; rfl
  | cons e ag ih =>
    intro lives hdom
    rw [List.foldl_cons]
    have h1 : keysOf (livesUpdate lives e.1 e.2) = keysOf lives :=
      livesUpdate_keysOf lives e.1 e.2 (hdom e (List.mem_cons_self e ag))
    rw [ih (livesUpdate lives e.1 e.2) (fun x hx => by
      rw [h1]; exact hdom x (List.mem_cons_of_mem e hx)), h1]

theorem killerFlagFold (eliminated : String → Bool) (newLives : List (String × Int))
    (ks : List String) :
    ∀ (f0 : String → Bool) (x : String),
      (ks.foldl (killerFlagStep eliminated newLives) f0) x =
        (f0 x || (ks.contains x &&
          (!eliminated x && decide (assocGetD newLives x ≥ KILLER_MAX_LIVES)))) := by
  induction ks with
  | nil => intro f0 x; simp
  | cons p ks ih =>
    intro f0 x
    rw [List.foldl_cons, ih]
    unfold killerFlagStep
    by_cases hc : (!eliminated p && decide (assocGetD newLives p ≥ KILLER_MAX_LIVES)) = true
    · rw [if_pos hc]
      by_cases hx : x = p
      · subst hx
        rw [if_pos rfl, List.contains_cons]
        simp [hc]
      · rw [if_neg hx, List.contains_cons]
        have : (x == p) = false := by
          rw [beq_eq_false_iff_ne]; exact hx
        rw [this, Bool.false_or]
    · rw [if_neg hc]
      by_cases hx : x = p
      · subst hx
        rw [List.contains_cons]
        have hcf : (!eliminated x && decide (assocGetD newLives x ≥ KILLER_MAX_LIVES))
            = false := by rwa [Bool.not_eq_true] at hc
        rw [hcf]
        simp
      · rw [List.contains_cons]
        have : (x == p) = false := by
          rw [beq_eq_false_iff_ne]; exact hx
        rw [this, Bool.false_or]

theorem killerElimStep_mk (newLives : List (String × Int)) (e1 : String → Bool)
    (e2 : List String) (p : String) :
    killerElimStep newLives (e1, e2) p =
      if (!e1 p && decide (assocGetD newLives p ≤ KILLER_ELIMINATION_THRESHOLD)) = true then
        (fun q => if q = p then true else e1 q, e2 ++ [p])
      else (e1, e2) := rfl

theorem killerElimFold (newLives : List (String × Int)) (ks : List String)
    (hnd : ks.Nodup) :
    ∀ (e0 : String → Bool) (acc0 : List String),
      (∀ x, (ks.foldl (killerElimStep newLives) (e0, acc0)).1 x =
        (e0 x || (ks.contains x &&
          (!e0 x && decide (assocGetD newLives x ≤ KILLER_ELIMINATION_THRESHOLD)))))
      ∧ (ks.foldl (killerElimStep newLives) (e0, acc0)).2 =
          acc0 ++ ks.filter
            (fun p => !e0 p && decide (assocGetD newLives p ≤ KILLER_ELIMINATION_THRESHOLD)) := by
  induction ks with
  | nil =>
    intro e0 acc0
    constructor
    · intro x; simp
    · simp
  | cons p ks ih =>
    intro e0 acc0
    have hnotmem : p ∉ ks := (List.nodup_cons.mp hnd).1
    have hnd' : ks.Nodup := (List.nodup_cons.mp hnd).2
    have ih' := ih hnd'
    rw [List.foldl_cons, killerElimStep_mk]
    by_cases hc : (!e0 p && decide (assocGetD newLives p ≤ KILLER_ELIMINATION_THRESHOLD))
        = true
    · rw [if_pos hc]
      obtain ⟨ihf, ihacc⟩ :=
        ih' (fun q => if q = p then true else e0 q) (acc0 ++ [p])
      constructor
      · intro x
        rw [ihf x]
        by_cases hx : x = p
        · subst hx
          rw [if_pos rfl, List.contains_cons]
          simp [hc]
        · rw [if_neg hx, List.contains_cons]
          have : (x == p) = false := by
            rw [beq_eq_false_iff_ne]; exact hx
          rw [this, Bool.false_or]
      · rw [ihacc, List.filter_cons, if_pos hc, List.append_assoc, List.singleton_append]
        congr 2
        apply List.filter_congr
        intro q hq
        have hqp : ¬ q = p := fun hh => hnotmem (hh ▸ hq)
        rw [if_neg hqp]
    · rw [if_neg hc]
      obtain ⟨ihf, ihacc⟩ := ih' e0 acc0
      constructor
      · intro x
        rw [ihf x]
        by_cases hx : x = p
        · subst hx
          have hcf : (!e0 x && decide (assocGetD newLives x ≤ KILLER_ELIMINATION_THRESHOLD))
              = false := by rwa [Bool.not_eq_true] at hc
          rw [List.contains_cons, hcf]
          simp
        · rw [List.contains_cons]
          have : (x == p) = false := by
            rw [beq_eq_false_iff_ne]; exact hx
          rw [this, Bool.false_or]
      · rw [ihacc, List.filter_cons, if_neg hc]

theorem aggregateChanges_def (changes : List KChange) :
    aggregateChanges changes = changes.foldl (fun a c => aggAdd a c.player c.delta) [] := rfl

theorem aggregateChanges_getD (changes : List KChange) (p : String) :
    assocGetD (aggregateChanges changes) p = sumDeltas changes p := by
  rw [aggregateChanges_def, aggFold_getD, assocGetD_nil, zero_add]

theorem aggregateChanges_mem_keysOf (changes : List KChange) (p : String) :
    p ∈ keysOf (aggregateChanges changes) ↔ hasChange changes p = true := by
  rw [aggregateChanges_def, aggFold_mem_keysOf]
  simp [keysOf]

theorem aggregateChanges_nodup (changes : List KChange) :
    (keysOf (aggregateChanges changes)).Nodup := by
  rw [aggregateChanges_def]
  exact aggFold_keysOf_nodup changes [] (by simp [keysOf])

theorem aggregateChanges_any (changes : List KChange) (p : String) :
    (aggregateChanges changes).any (fun e => e.1 = p) = hasChange changes p := by
  cases hb : hasChange changes p with
  | false =>
    rw [Bool.eq_false_iff]
    intro hcon
    have hmem := (aggregateChanges_mem_keysOf changes p).mp
      ((any_key_iff_mem_keysOf _ p).mp hcon)
    rw [hb] at hmem
    exact Bool.false_ne_true hmem
  | true =>
    exact (any_key_iff_mem_keysOf _ p).mpr ((aggregateChanges_mem_keysOf changes p).mpr hb)

theorem applyKillerChanges_lives (changes : List KChange) (lives : List (String × Int))
    (isKiller eliminated : String → Bool) :
    (applyKillerChanges changes lives isKiller eliminated).lives =
      (aggregateChanges changes).foldl (fun nl e => livesUpdate nl e.1 e.2) lives := rfl

theorem applyKillerChanges_isKiller_def (changes : List KChange)
    (lives : List (String × Int)) (isKiller eliminated : String → Bool) :
    (applyKillerChanges changes lives isKiller eliminated).isKiller =
      (keysOf ((aggregateChanges changes).foldl (fun nl e => livesUpdate nl e.1 e.2) lives)).foldl
        (killerFlagStep eliminated
          ((aggregateChanges changes).foldl (fun nl e => livesUpdate nl e.1 e.2) lives))
        isKiller := rfl

theorem applyKillerChanges_eliminated_def (changes : List KChange)
    (lives : List (String × Int)) (isKiller eliminated : String → Bool) :
    (applyKillerChanges changes lives isKiller eliminated).eliminated =
      ((keysOf ((aggregateChanges changes).foldl (fun nl e => livesUpdate nl e.1 e.2) lives)).foldl
        (killerElimStep
          ((aggregateChanges changes).foldl (fun nl e => livesUpdate nl e.1 e.2) lives))
        (eliminated, [])).1 := rfl

theorem applyKillerChanges_newlyEliminated_def (changes : List KChange)
    (lives : List (String × Int)) (isKiller eliminated : String → Bool) :
    (applyKillerChanges changes lives isKiller eliminated).newlyEliminated =
      ((keysOf ((aggregateChanges changes).foldl (fun nl e => livesUpdate nl e.1 e.2) lives)).foldl
        (killerElimStep
          ((aggregateChanges changes).foldl (fun nl e => livesUpdate nl e.1 e.2) lives))
        (eliminated, [])).2 := rfl

theorem applyKiller_lives_getD (changes : List KChange) (lives : List (String × Int))
    (isKiller eliminated : String → Bool) (p : String) :
    assocGetD (applyKillerChanges changes lives isKiller eliminated).lives p =
      if hasChange changes p = true then
        min (assocGetD lives p + sumDeltas changes p) KILLER_MAX_LIVES
      else assocGetD lives p := by
  rw [applyKillerChanges_lives,
    livesFold_getD (aggregateChanges changes) lives p (aggregateChanges_nodup changes),
    aggregateChanges_any, aggregateChanges_getD]

theorem applyKiller_lives_keysOf (changes : List KChange) (lives : List (String × Int))
    (isKiller eliminated : String → Bool)
    (hdom : ∀ c ∈ changes, c.player ∈ keysOf lives) :
    keysOf (applyKillerChanges changes lives isKiller eliminated).lives = keysOf lives := by
  rw [applyKillerChanges_lives]
  apply livesFold_keysOf
  intro e he
  have hmem : e.1 ∈ keysOf (aggregateChanges changes) := List.mem_map_of_mem _ he
  obtain ⟨c, hcmem, hcp⟩ := List.any_eq_true.mp
    ((aggregateChanges_mem_keysOf changes e.1).mp hmem)
  rw [decide_eq_true_eq] at hcp
  rw [← hcp]
  exact hdom c hcmem

theorem applyKiller_isKiller_apply (changes : List KChange) (lives : List (String × Int))
    (isKiller eliminated : String → Bool) (p : String) :
    (applyKillerChanges changes lives isKiller eliminated).isKiller p =
      (isKiller p ||
        ((keysOf (applyKillerChanges changes lives isKiller eliminated).lives).contains p &&
          (!eliminated p &&
            decide (assocGetD (applyKillerChanges changes lives isKiller eliminated).lives p ≥
              KILLER_MAX_LIVES)))) := by
  rw [applyKillerChanges_lives, applyKillerChanges_isKiller_def, killerFlagFold]

theorem applyKiller_eliminated_apply (changes : List KChange) (lives : List (String × Int))
    (isKiller eliminated : String → Bool) (hnd : (keysOf lives).Nodup)
    (hdom : ∀ c ∈ changes, c.player ∈ keysOf lives) (p : String) :
    (applyKillerChanges changes lives isKiller eliminated).eliminated p =
      (eliminated p ||
        ((keysOf lives).contains p &&
          (!eliminated p &&
            decide (assocGetD (applyKillerChanges changes lives isKiller eliminated).lives p ≤
              KILLER_ELIMINATION_THRESHOLD)))) := by
  have hkeys := applyKiller_lives_keysOf changes lives isKiller eliminated hdom
  rw [applyKillerChanges_lives] at hkeys
  have hnd2 : (keysOf ((aggregateChanges changes).foldl
      (fun nl e => livesUpdate nl e.1 e.2) lives)).Nodup := by
    rw [hkeys]; exact hnd
  rw [applyKillerChanges_lives, applyKillerChanges_eliminated_def,
    (killerElimFold _ _ hnd2 eliminated []).1 p, hkeys]

theorem applyKiller_newlyEliminated_eq (changes : List KChange)
    (lives : List (String × Int)) (isKiller eliminated : String → Bool)
    (hnd : (keysOf lives).Nodup) (hdom : ∀ c ∈ changes, c.player ∈ keysOf lives) :
    (applyKillerChanges changes lives isKiller eliminated).newlyEliminated =
      (keysOf lives).filter (fun p => !eliminated p &&
        decide (assocGetD (applyKillerChanges changes lives isKiller eliminated).lives p ≤
          KILLER_ELIMINATION_THRESHOLD)) := by
  have hkeys := applyKiller_lives_keysOf changes lives isKiller eliminated hdom
  rw [applyKillerChanges_lives] at hkeys
  have hnd2 : (keysOf ((aggregateChanges changes).foldl
      (fun nl e => livesUpdate nl e.1 e.2) lives)).Nodup := by
    rw [hkeys]; exact hnd
  rw [applyKillerChanges_lives, applyKillerChanges_newlyEliminated_def,
    (killerElimFold _ _ hnd2 eliminated []).2, List.nil_append, hkeys]

/-- Claim C5: `applyKillerChanges` aggregates all event deltas per player first,
applies each player's single net delta to their prior life total and clamps
the result to a ceiling of `KILLER_MAX_LIVES` (9) with no floor clamp; players
without events keep their lives untouched and the set and order of players in
the lives object is preserved. It then sets the killer flag for every
previously non-eliminated player now at ≥ 9 lives, marks every previously
non-eliminated player now at ≤ −1 lives as eliminated, and lists exactly
those players, in key order, in `newlyEliminated`. -/
theorem applyKillerChanges_aggregate_then_clamp (changes : List KChange)
    (lives : List (String × Int)) (isKiller eliminated : String → Bool)
    (hnd : (keysOf lives).Nodup) (hdom : ∀ c ∈ changes, c.player ∈ keysOf lives) :
    (keysOf (applyKillerChanges changes lives isKiller eliminated).lives = keysOf lives)
    ∧ (∀ p, assocGetD (applyKillerChanges changes lives isKiller eliminated).lives p =
        if hasChange changes p = true then
          min (assocGetD lives p + sumDeltas changes p) KILLER_MAX_LIVES
        else assocGetD lives p)
    ∧ (∀ p, (applyKillerChanges changes lives isKiller eliminated).isKiller p =
        (isKiller p || ((keysOf lives).contains p && (!eliminated p &&
          decide (assocGetD (applyKillerChanges changes lives isKiller eliminated).lives p ≥
            KILLER_MAX_LIVES)))))
    ∧ (∀ p, (applyKillerChanges changes lives isKiller eliminated).eliminated p =
        (eliminated p || ((keysOf lives).contains p && (!eliminated p &&
          decide (assocGetD (applyKillerChanges changes lives isKiller eliminated).lives p ≤
            KILLER_ELIMINATION_THRESHOLD)))))
    ∧ (applyKillerChanges changes lives isKiller eliminated).newlyEliminated =
        (keysOf lives).filter (fun p => !eliminated p &&
          decide (assocGetD (applyKillerChanges changes lives isKiller eliminated).lives p ≤
            KILLER_ELIMINATION_THRESHOLD)) := by
  refine ⟨applyKiller_lives_keysOf changes lives isKiller eliminated hdom,
    fun p => applyKiller_lives_getD changes lives isKiller eliminated p,
    fun p => ?_,
    fun p => applyKiller_eliminated_apply changes lives isKiller eliminated hnd hdom p,
    applyKiller_newlyEliminated_eq changes lives isKiller eliminated hnd hdom⟩
  rw [applyKiller_isKiller_apply changes lives isKiller eliminated p,
    applyKiller_lives_keysOf changes lives isKiller eliminated hdom]

/-- Witness for `applyKillerChanges_aggregate_then_clamp`, at the spec's own
examples: prior lives 2 with events −3, −1 aggregates to −2 (no floor clamp)
and eliminates; prior lives 7 with event +6 clamps to 9 and sets the killer
flag. -/
theorem applyKillerChanges_aggregate_then_clamp_witness :
    (keysOf [("A", (2 : Int)), ("B", 7)]).Nodup
    ∧ (∀ c ∈ [KChange.mk "A" (-3) "killed", KChange.mk "A" (-1) "adj-killed",
          KChange.mk "B" 6 "own"], c.player ∈ keysOf [("A", (2 : Int)), ("B", 7)])
    ∧ assocGetD (applyKillerChanges
        [KChange.mk "A" (-3) "killed", KChange.mk "A" (-1) "adj-killed",
          KChange.mk "B" 6 "own"]
        [("A", (2 : Int)), ("B", 7)] (fun _ => false) (fun _ => false)).lives "A" = -2
    ∧ assocGetD (applyKillerChanges
        [KChange.mk "A" (-3) "killed", KChange.mk "A" (-1) "adj-killed",
          KChange.mk "B" 6 "own"]
        [("A", (2 : Int)), ("B", 7)] (fun _ => false) (fun _ => false)).lives "B" = 9
    ∧ (applyKillerChanges
        [KChange.mk "A" (-3) "killed", KChange.mk "A" (-1) "adj-killed",
          KChange.mk "B" 6 "own"]
        [("A", (2 : Int)), ("B", 7)] (fun _ => false) (fun _ => false)).isKiller "B" = true
    ∧ (applyKillerChanges
        [KChange.mk "A" (-3) "killed", KChange.mk "A" (-1) "adj-killed",
          KChange.mk "B" 6 "own"]
        [("A", (2 : Int)), ("B", 7)] (fun _ => false) (fun _ => false)).newlyEliminated
        = ["A"] := by
  have h := applyKillerChanges_aggregate_then_clamp
    [KChange.mk "A" (-3) "killed", KChange.mk "A" (-1) "adj-killed", KChange.mk "B" 6 "own"]
    [("A", (2 : Int)), ("B", 7)] (fun _ => false) (fun _ => false)
    (by decide) (by decide)
  refine ⟨by decide, by decide, ?_, ?_, ?_, ?_⟩
  · rw [h.2.1 "A"]; decide
  · rw [h.2.1 "B"]; decide
  · rw [h.2.2.1 "B", h.2.1 "B"]; decide
  · rw [h.2.2.2.2]
    have hA := h.2.1 "A"
    have hB := h.2.1 "B"
    rw [show (keysOf [("A", (2 : Int)), ("B", 7)]) = ["A", "B"] from rfl,
      List.filter_cons, List.filter_cons, hA, hB]
    decide

/-- Claim C9: under `applyKillerChanges` the killer and eliminated flags are
monotonic — an already-true flag stays true — an already-eliminated player is
never listed in `newlyEliminated` again even if their lives fall to −1 or
below once more, and yet the aggregated deltas are still applied (with the
ceiling clamp) to an eliminated player's life number in the returned
snapshot. -/
theorem killer_flags_monotone (changes : List KChange) (lives : List (String × Int))
    (isKiller eliminated : String → Bool)
    (hnd : (keysOf lives).Nodup) (hdom : ∀ c ∈ changes, c.player ∈ keysOf lives) :
    (∀ p, eliminated p = true →
        (applyKillerChanges changes lives isKiller eliminated).eliminated p = true)
    ∧ (∀ p, isKiller p = true →
        (applyKillerChanges changes lives isKiller eliminated).isKiller p = true)
    ∧ (∀ p, eliminated p = true →
        p ∉ (applyKillerChanges changes lives isKiller eliminated).newlyEliminated)
    ∧ (∀ p, eliminated p = true →
        assocGetD (applyKillerChanges changes lives isKiller eliminated).lives p =
          if hasChange changes p = true then
            min (assocGetD lives p + sumDeltas changes p) KILLER_MAX_LIVES
          else assocGetD lives p) := by
  refine ⟨fun p hp => ?_, fun p hp => ?_, fun p hp => ?_,
    fun p _ => applyKiller_lives_getD changes lives isKiller eliminated p⟩
  · rw [applyKiller_eliminated_apply changes lives isKiller eliminated hnd hdom p, hp]
    rfl
  · rw [applyKiller_isKiller_apply changes lives isKiller eliminated p, hp]
    rfl
  · rw [applyKiller_newlyEliminated_eq changes lives isKiller eliminated hnd hdom]
    intro hmem
    have hcond := (List.mem_filter.mp hmem).2
    rw [hp] at hcond
    simp at hcond

/-- Witness for `killer_flags_monotone`: player A enters the turn already
eliminated with 2 lives; a −3 event still updates A's displayed lives to −1
but A is not re-listed as newly eliminated, and B's killer flag survives. -/
theorem killer_flags_monotone_witness :
    (keysOf [("A", (2 : Int)), ("B", 7)]).Nodup
    ∧ (∀ c ∈ [KChange.mk "A" (-3) "killed"],
        c.player ∈ keysOf [("A", (2 : Int)), ("B", 7)])
    ∧ (applyKillerChanges [KChange.mk "A" (-3) "killed"] [("A", (2 : Int)), ("B", 7)]
        (fun p => p == "B") (fun p => p == "A")).eliminated "A" = true
    ∧ (applyKillerChanges [KChange.mk "A" (-3) "killed"] [("A", (2 : Int)), ("B", 7)]
        (fun p => p == "B") (fun p => p == "A")).isKiller "B" = true
    ∧ "A" ∉ (applyKillerChanges [KChange.mk "A" (-3) "killed"] [("A", (2 : Int)), ("B", 7)]
        (fun p => p == "B") (fun p => p == "A")).newlyEliminated
    ∧ assocGetD (applyKillerChanges [KChange.mk "A" (-3) "killed"]
        [("A", (2 : Int)), ("B", 7)] (fun p => p == "B") (fun p => p == "A")).lives "A"
        = -1 := by
  have h := killer_flags_monotone [KChange.mk "A" (-3) "killed"]
    [("A", (2 : Int)), ("B", 7)] (fun p => p == "B") (fun p => p == "A")
    (by decide) (by decide)
  refine ⟨by decide, by decide, h.1 "A" (by decide), h.2.1 "B" (by decide),
    h.2.2.1 "A" (by decide), ?_⟩
  rw [h.2.2.2 "A" (by decide)]
  decide

theorem areAdjacentO_some (a b c : Dart) :
    areAdjacentO (some a) (some b) (some c) = some (areAdjacent a b c) := rfl

theorem toString_int_20 : toString (20 : Int) = "20" := rfl

theorem check_cons_capital (d : Dart) (ds : List Dart) :
    checkContractRequirements (d :: ds) "capital" = some true := rfl

theorem check_three_side (a b c : Dart) :
    checkContractRequirements [a, b, c] "side" = some (areAdjacent a b c) := rfl

theorem check_three_3row (a b c : Dart) :
    checkContractRequirements [a, b, c] "3row" =
      some (areConsecutive (some a.number) (some b.number) (some c.number)) := rfl

theorem check_cons_color (d : Dart) (ds : List Dart) :
    checkContractRequirements (d :: ds) "color" =
      some (decide (distinctColorCount (d :: ds) ≥ 3)) := rfl

theorem check_cons_double (d : Dart) (ds : List Dart) :
    checkContractRequirements (d :: ds) "double" =
      some (((d :: ds).map (fun x => x.modifier)).contains "double") := rfl

theorem check_cons_triple (d : Dart) (ds : List Dart) :
    checkContractRequirements (d :: ds) "triple" =
      some (((d :: ds).map (fun x => x.modifier)).contains "triple") := rfl

theorem check_cons_57 (d : Dart) (ds : List Dart) :
    checkContractRequirements (d :: ds) "57" =
      some (decide (((d :: ds).map (fun x => x.score)).sum = 57)) := rfl

theorem check_cons_bull (d : Dart) (ds : List Dart) :
    checkContractRequirements (d :: ds) "bull" =
      some (((d :: ds).map (fun x => x.number)).contains 25) := rfl

theorem check_cons_20 (d : Dart) (ds : List Dart) :
    checkContractRequirements (d :: ds) "20" =
      some (((d :: ds).map (fun x => x.number)).contains 20) := rfl

theorem check_cons_19 (d : Dart) (ds : List Dart) :
    checkContractRequirements (d :: ds) "19" =
      some (((d :: ds).map (fun x => x.number)).contains 19) := rfl

theorem check_cons_18 (d : Dart) (ds : List Dart) :
    checkContractRequirements (d :: ds) "18" =
      some (((d :: ds).map (fun x => x.number)).contains 18) := rfl

theorem check_cons_17 (d : Dart) (ds : List Dart) :
    checkContractRequirements (d :: ds) "17" =
      some (((d :: ds).map (fun x => x.number)).contains 17) := rfl

theorem check_cons_16 (d : Dart) (ds : List Dart) :
    checkContractRequirements (d :: ds) "16" =
      some (((d :: ds).map (fun x => x.number)).contains 16) := rfl

theorem check_cons_15 (d : Dart) (ds : List Dart) :
    checkContractRequirements (d :: ds) "15" =
      some (((d :: ds).map (fun x => x.number)).contains 15) := rfl

theorem check_cons_14 (d : Dart) (ds : List Dart) :
    checkContractRequirements (d :: ds) "14" =
      some (((d :: ds).map (fun x => x.number)).contains 14) := rfl

theorem toString_int_19 : toString (19 : Int) = "19" := rfl
theorem toString_int_18 : toString (18 : Int) = "18" := rfl
theorem toString_int_17 : toString (17 : Int) = "17" := rfl
theorem toString_int_16 : toString (16 : Int) = "16" := rfl
theorem toString_int_15 : toString (15 : Int) = "15" := rfl
theorem toString_int_14 : toString (14 : Int) = "14" := rfl

theorem filter_map_toString_cons (n : Int) (ns : List Int) (g : Int → Bool) :
    ((n :: ns).filter g).map (fun x => toString x) =
      (if g n then [toString n] else []) ++ (ns.filter g).map (fun x => toString x) := by
  rw [List.filter_cons]
  by_cases h : g n = true
  · rw [if_pos h, if_pos h, List.map_cons, List.singleton_append]
  · rw [if_neg h, if_neg h, List.nil_append]

theorem getValidContracts_three (a b c : Dart) :
    getValidContracts [a, b, c] =
      some (YAHTZEE_PUSH_ORDER.filter
        (fun cid => decide (checkContractRequirements [a, b, c] cid = some true))) := by
  have hsplit : YAHTZEE_PUSH_ORDER =
      ["capital"] ++ ["20"] ++ ["19"] ++ ["18"] ++ ["17"] ++ ["16"] ++ ["15"] ++ ["14"]
        ++ ["side"] ++ ["3row"] ++ ["color"] ++ ["double"] ++ ["triple"] ++ ["57"]
        ++ ["bull"] := rfl
  rw [hsplit]
  simp only [List.filter_append, List.filter_cons, List.filter_nil,
    check_cons_capital, check_three_side, check_three_3row, check_cons_color,
    check_cons_double, check_cons_triple, check_cons_57, check_cons_bull,
    check_cons_20, check_cons_19, check_cons_18, check_cons_17, check_cons_16,
    check_cons_15, check_cons_14]
  simp only [getValidContracts, List.length_cons, List.length_nil, Nat.succ_ne_zero,
    if_false, areAdjacentO_some, List.get?_cons_zero, List.get?_cons_succ,
    filter_map_toString_cons, List.filter_nil, List.map_nil,
    toString_int_20, toString_int_19, toString_int_18, toString_int_17, toString_int_16,
    toString_int_15, toString_int_14]
  simp [List.append_assoc]

/-- Claim C4 (amended): for every 3-dart turn `getValidContracts` returns
exactly the ids whose qualification predicate `checkContractRequirements`
holds, always including `capital` — but ordered by the source's push order
(capital, then the numeric contracts 20 down to 14, then side, 3row, color,
double, triple, 57, bull), not by the canonical play order `CONTRACT_IDS`;
empty or null darts yield an empty list. -/
theorem getValidContracts_amended (darts : List Dart) (h3 : darts.length = 3) :
    getValidContracts darts =
      some (YAHTZEE_PUSH_ORDER.filter
        (fun cid => decide (checkContractRequirements darts cid = some true)))
    ∧ (∃ l, getValidContracts darts = some l ∧ "capital" ∈ l)
    ∧ getValidContracts [] = some []
    ∧ getValidContractsO none = some [] := by
  obtain ⟨a, b, c, rfl⟩ : ∃ a b c, darts = [a, b, c] := by
    rcases darts with _ | ⟨a, _ | ⟨b, _ | ⟨c, _ | ⟨d, tl⟩⟩⟩⟩
    · simp at h3
    · simp at h3
    · simp at h3
    · exact ⟨a, b, c, rfl⟩
    · simp only [List.length_cons] at h3
      omega
  refine ⟨getValidContracts_three a b c, ⟨_, getValidContracts_three a b c, ?_⟩, rfl, rfl⟩
  rw [List.mem_filter]
  refine ⟨by decide, ?_⟩
  rw [check_cons_capital]
  decide

/-- Witness for `getValidContracts_amended` at a concrete 3-dart turn. -/
theorem getValidContracts_amended_witness :
    ([⟨20, "single", 20⟩, ⟨1, "single", 1⟩, ⟨18, "double", 36⟩] : List Dart).length = 3
    ∧ (getValidContracts [⟨20, "single", 20⟩, ⟨1, "single", 1⟩, ⟨18, "double", 36⟩] =
        some (YAHTZEE_PUSH_ORDER.filter
          (fun cid => decide (checkContractRequirements
            [⟨20, "single", 20⟩, ⟨1, "single", 1⟩, ⟨18, "double", 36⟩] cid = some true)))
      ∧ (∃ l, getValidContracts [⟨20, "single", 20⟩, ⟨1, "single", 1⟩, ⟨18, "double", 36⟩]
            = some l ∧ "capital" ∈ l)
      ∧ getValidContracts [] = some []
      ∧ getValidContractsO none = some []) :=
  ⟨rfl, getValidContracts_amended _ rfl⟩

/-- Claim C4 (counterexample to the claim as stated): the turn 19, 7, 16 (all
singles) qualifies capital, 19, 16 and side, and `getValidContracts` returns
them as `["capital", "19", "16", "side"]` — the source's push order — whereas
the canonical play order `CONTRACT_IDS` would put `side` before `19`. -/
theorem getValidContracts_order_cex :
    getValidContracts [⟨19, "single", 19⟩, ⟨7, "single", 7⟩, ⟨16, "single", 16⟩]
      = some ["capital", "19", "16", "side"]
    ∧ ¬ (["capital", "19", "16", "side"] =
        CONTRACT_IDS.filter (fun cid =>
          (["capital", "19", "16", "side"] : List String).contains cid)) := by
  decide

/-- Claim C3 (counterexample to the claim as stated): a 1-dart turn does not
fail qualification or score zero — `capital` qualifies it and scores it. -/
theorem contracts_short_turn_cex :
    checkContractRequirements [⟨20, "single", 20⟩] "capital" = some true
    ∧ calculateContractScore [⟨20, "single", 20⟩] "capital" = 20 := by
  decide

/-- Claim C3 (amended): for every contract id, empty and `null` darts lists
fail qualification and score zero, with `null` behaving identically to empty.
This does not extend to 1- and 2-dart turns: those are evaluated on the
partial list (capital qualifies and scores it), and the `side` branch
dereferences a missing dart there (a thrown `TypeError`, the `none` result),
except when an early single bull short-circuits it. -/
theorem contracts_empty_null_amended :
    (∀ cid ∈ CONTRACT_IDS,
        checkContractRequirements [] cid = some false
        ∧ checkContractRequirementsO none cid = some false
        ∧ calculateContractScore [] cid = 0
        ∧ calculateContractScoreO none cid = 0)
    ∧ checkContractRequirements [⟨20, "single", 20⟩] "capital" = some true
    ∧ calculateContractScore [⟨20, "single", 20⟩] "capital" = 20
    ∧ checkContractRequirements [⟨20, "single", 20⟩] "side" = none
    ∧ checkContractRequirements [⟨20, "single", 20⟩, ⟨5, "single", 5⟩] "side" = none
    ∧ checkContractRequirements [⟨25, "single", 25⟩] "side" = some true := by
  decide

theorem determineClockWinner_nil (players : List String) (positions : String → Option Int) :
    determineClockWinner players positions [] =
      (players.filter (fun p => (positions p).getD 1 =
          ((players.map (fun p => (positions p).getD 1)).max?).getD 1),
       decide ((players.filter (fun p => (positions p).getD 1 =
          ((players.map (fun p => (positions p).getD 1)).max?).getD 1)).length > 1)) := rfl

/-- Claim C7: `determineClockWinner` (modelled from the spec — the
implementation is not among the shared `src` modules, only its Jest tests and
API documentation): a non-empty `finishOrder` yields its first entry as the
sole winner with `isTie` false regardless of positions; with an empty
`finishOrder` the winners are exactly the players achieving the maximum
position (a player missing from the positions map defaulting to the starting
position 1), and `isTie` is true iff more than one player does. -/
theorem determineClockWinner_spec (players : List String)
    (positions : String → Option Int) (finishOrder : List String)
    (hne : players ≠ []) :
    (∀ w rest, finishOrder = w :: rest →
      determineClockWinner players positions finishOrder = ([w], false))
    ∧ (finishOrder = [] →
        (∀ p, p ∈ (determineClockWinner players positions finishOrder).1 ↔
          (p ∈ players ∧ ∀ q ∈ players, (positions q).getD 1 ≤ (positions p).getD 1))
        ∧ ((determineClockWinner players positions finishOrder).2 = true ↔
            1 < (determineClockWinner players positions finishOrder).1.length)) := by
  constructor
  · intro w rest h
    subst h
    rfl
  · intro h
    subst h
    have hmapne : players.map (fun p => (positions p).getD 1) ≠ [] := by
      intro hcon
      exact hne (List.map_eq_nil_iff.mp hcon)
    obtain ⟨m, hmax⟩ : ∃ m, (players.map (fun p => (positions p).getD 1)).max? = some m := by
      cases hm : (players.map (fun p => (positions p).getD 1)).max? with
      | none => exact absurd (List.max?_eq_none_iff.mp hm) hmapne
      | some m => exact ⟨m, rfl⟩
    have hanti : Std.Antisymm (α := Int) (· ≤ ·) := ⟨fun h1 h2 => le_antisymm h1 h2⟩
    have hm := hmax
    rw [List.max?_eq_some_iff] at hm
    · obtain ⟨hmem, hub⟩ := hm
      constructor
      · intro p
        rw [determineClockWinner_nil, hmax]
        simp only [Option.getD_some, List.mem_filter, decide_eq_true_eq]
        constructor
        · rintro ⟨hp, heq⟩
          refine ⟨hp, fun q hq => ?_⟩
          rw [heq]
          exact hub _ (List.mem_map_of_mem _ hq)
        · rintro ⟨hp, hub'⟩
          refine ⟨hp, le_antisymm ?_ ?_⟩
          · exact hub _ (List.mem_map_of_mem _ hp)
          · obtain ⟨q0, hq0, hq0m⟩ := List.mem_map.mp hmem
            rw [← hq0m]
            exact hub' q0 hq0
      · rw [determineClockWinner_nil]
        simp
    · exact fun _ => le_refl _
    · intro a b
      rcases le_total a b with hab | hab
      · rw [max_eq_right hab]; right; rfl
      · rw [max_eq_left hab]; left; rfl
    · intro a b c
      exact max_le_iff

/-- Witness for `determineClockWinner_spec`: two players both at position 9
with nobody finished tie for the win. -/
theorem determineClockWinner_spec_witness :
    (["A", "B"] : List String) ≠ []
    ∧ ((∀ w rest, ([] : List String) = w :: rest →
          determineClockWinner ["A", "B"] (fun _ => some (9 : Int)) [] = ([w], false))
      ∧ (([] : List String) = [] →
          (∀ p, p ∈ (determineClockWinner ["A", "B"] (fun _ => some (9 : Int)) []).1 ↔
            (p ∈ (["A", "B"] : List String) ∧ ∀ q ∈ (["A", "B"] : List String),
              ((fun _ => some (9 : Int)) q).getD 1 ≤ ((fun _ => some (9 : Int)) p).getD 1))
          ∧ ((determineClockWinner ["A", "B"] (fun _ => some (9 : Int)) []).2 = true ↔
              1 < (determineClockWinner ["A", "B"] (fun _ => some (9 : Int)) []).1.length))) :=
  ⟨by decide, determineClockWinner_spec ["A", "B"] (fun _ => some (9 : Int)) []
    (by decide)⟩

theorem windowAt_nodup : ∀ i : Nat, i < 20 → (windowAt i).Nodup := by decide

theorem three_distinct_cover (x y z a b c : Int) (hxy : x ≠ y) (hxz : x ≠ z) (hyz : y ≠ z)
    (hx : x = a ∨ x = b ∨ x = c) (hy : y = a ∨ y = b ∨ y = c) (hz : z = a ∨ z = b ∨ z = c) :
    (a = x ∨ a = y ∨ a = z) ∧ (b = x ∨ b = y ∨ b = z) ∧ (c = x ∨ c = y ∨ c = z) := by
  rcases hx with rfl | rfl | rfl <;> rcases hy with rfl | rfl | rfl <;>
    rcases hz with rfl | rfl | rfl <;> tauto

theorem keep_plain_number (n : Int) (h : 1 ≤ n ∧ n ≤ 20) :
    decide (n ≠ 0 ∧ n ≠ 25) = true := by
  simp only [decide_eq_true_eq]
  constructor <;> omega

theorem not_single_bull_of_plain (d : Dart) (h : 1 ≤ d.number ∧ d.number ≤ 20) :
    isSingleBull d = false := by
  simp only [isSingleBull, decide_eq_false_iff_not]
  rintro ⟨h25, _⟩
  omega

theorem areAdjacent_eq_true_iff (d1 d2 d3 : Dart)
    (h1 : 1 ≤ d1.number ∧ d1.number ≤ 20) (h2 : 1 ≤ d2.number ∧ d2.number ≤ 20)
    (h3 : 1 ≤ d3.number ∧ d3.number ≤ 20) :
    areAdjacent d1 d2 d3 = true ↔ sideSpec d1.number d2.number d3.number := by
  have hsb1 := not_single_bull_of_plain d1 h1
  have hsb2 := not_single_bull_of_plain d2 h2
  have hsb3 := not_single_bull_of_plain d3 h3
  have hfilter : [d1.number, d2.number, d3.number].filter
      (fun n => decide (n ≠ 0 ∧ n ≠ 25)) = [d1.number, d2.number, d3.number] := by
    simp only [List.filter_cons, List.filter_nil, keep_plain_number _ h1,
      keep_plain_number _ h2, keep_plain_number _ h3, if_true]
  rw [areAdjacent, hsb1, hsb2, hsb3]
  simp only [Bool.or_self, Bool.false_eq_true, if_neg not_false, hfilter,
    List.length_cons, List.length_nil]
  rw [if_neg (by omega)]
  constructor
  · intro hany
    obtain ⟨i, hirange, hcond⟩ := List.any_eq_true.mp hany
    have hi : i < 20 := List.mem_range.mp hirange
    have hwin : windowAt i = [DARTBOARD_SEQUENCE.getD i 0,
        DARTBOARD_SEQUENCE.getD ((i + 1) % 20) 0,
        DARTBOARD_SEQUENCE.getD ((i + 2) % 20) 0] := by
      rw [windowAt, Nat.mod_eq_of_lt hi]
    have hnd := windowAt_nodup i hi
    rw [hwin] at hnd
    simp only [List.nodup_cons, List.mem_cons, List.not_mem_nil, or_false,
      not_or, List.nodup_nil, and_true] at hnd
    obtain ⟨⟨hxy, hxz⟩, hyz, -⟩ := hnd
    simp only [Bool.and_eq_true, List.contains_eq_any_beq, List.any_eq_true,
      List.mem_cons, List.not_mem_nil, or_false, beq_iff_eq] at hcond
    obtain ⟨⟨hw1, hw2⟩, hw3⟩ := hcond
    obtain ⟨x1, hx1m, hx1e⟩ := hw1
    obtain ⟨x2, hx2m, hx2e⟩ := hw2
    obtain ⟨x3, hx3m, hx3e⟩ := hw3
    have hcov := three_distinct_cover _ _ _ _ _ _ hxy hxz hyz
      (hx1e ▸ hx1m) (hx2e ▸ hx2m) (hx3e ▸ hx3m)
    refine ⟨i, hi, fun n => ⟨?_, ?_⟩⟩
    · intro hn
      rw [hwin]
      simp only [List.mem_cons, List.not_mem_nil, or_false]
      rcases hn with rfl | rfl | rfl
      · exact hcov.1
      · exact hcov.2.1
      · exact hcov.2.2
    · intro hn
      rw [hwin] at hn
      simp only [List.mem_cons, List.not_mem_nil, or_false] at hn
      rcases hn with rfl | rfl | rfl
      · exact hx1e ▸ hx1m
      · exact hx2e ▸ hx2m
      · exact hx3e ▸ hx3m
  · rintro ⟨i, hi, hset⟩
    apply List.any_eq_true.mpr
    refine ⟨i, List.mem_range.mpr hi, ?_⟩
    have hwin : windowAt i = [DARTBOARD_SEQUENCE.getD i 0,
        DARTBOARD_SEQUENCE.getD ((i + 1) % 20) 0,
        DARTBOARD_SEQUENCE.getD ((i + 2) % 20) 0] := by
      rw [windowAt, Nat.mod_eq_of_lt hi]
    simp only [Bool.and_eq_true, List.contains_eq_any_beq, List.any_eq_true,
      List.mem_cons, List.not_mem_nil, or_false, beq_iff_eq]
    refine ⟨⟨⟨DARTBOARD_SEQUENCE.getD i 0, ?_, rfl⟩,
      ⟨DARTBOARD_SEQUENCE.getD ((i + 1) % 20) 0, ?_, rfl⟩⟩,
      ⟨DARTBOARD_SEQUENCE.getD ((i + 2) % 20) 0, ?_, rfl⟩⟩
    · exact (hset _).mpr (by rw [hwin]; simp)
    · exact (hset _).mpr (by rw [hwin]; simp)
    · exact (hset _).mpr (by rw [hwin]; simp)

/-- Claim C8: qualification of the side contract. Any turn containing a
single-bull dart qualifies; a double bull contributes nothing, so a double
bull plus two plain numbers never qualifies (whether or not those two are
adjacent); and for three plain-number darts `areAdjacent` is true iff the
numbers hit are exactly some block of three consecutive positions of the
circular board sequence (`sideSpec`). -/
theorem side_contract_characterization (d1 d2 d3 : Dart) :
    ((isSingleBull d1 = true ∨ isSingleBull d2 = true ∨ isSingleBull d3 = true) →
      areAdjacent d1 d2 d3 = true)
    ∧ ((d1.number = 25 ∧ d1.modifier = "double") →
        (1 ≤ d2.number ∧ d2.number ≤ 20) → (1 ≤ d3.number ∧ d3.number ≤ 20) →
        areAdjacent d1 d2 d3 = false)
    ∧ ((1 ≤ d1.number ∧ d1.number ≤ 20) → (1 ≤ d2.number ∧ d2.number ≤ 20) →
        (1 ≤ d3.number ∧ d3.number ≤ 20) →
        (areAdjacent d1 d2 d3 = true ↔ sideSpec d1.number d2.number d3.number)) := by
  refine ⟨?_, ?_, areAdjacent_eq_true_iff d1 d2 d3⟩
  · intro h
    rcases h with h | h | h <;> simp [areAdjacent, h]
  · rintro ⟨h25, hdd⟩ h2 h3
    have hsb1 : isSingleBull d1 = false := by
      simp only [isSingleBull, decide_eq_false_iff_not]
      rintro ⟨-, hsingle⟩
      rw [hdd] at hsingle
      exact absurd hsingle (by decide)
    have hsb2 := not_single_bull_of_plain d2 h2
    have hsb3 := not_single_bull_of_plain d3 h3
    rw [areAdjacent, hsb1, hsb2, hsb3]
    simp only [Bool.or_self, Bool.false_eq_true, if_neg not_false]
    rw [h25]
    have hdrop : (decide ((25 : Int) ≠ 0 ∧ (25 : Int) ≠ 25)) = false := by decide
    simp only [List.filter_cons, List.filter_nil, keep_plain_number _ h2,
      keep_plain_number _ h3, hdrop, if_true, Bool.false_eq_true, if_neg not_false]
    simp

end HalveIt
